import Mathlib

/-!
# XMRpos backend: payment reconciliation (callback service)

A shallow embedding of `internal/features/callback/service.go`:
`processTransaction`, `checkUnconfirmedTransactions` and `HandleLwsHook`,
written against the `CallbackRepository` interface exactly as the Go code is,
together with an in-memory repository that stands for the implementation of
that interface.

Conventions of the embedding.

* Go `int64` values are only compared and copied by the embedded code, never
  added or multiplied, so they are `Int`; the one place where 64-bit
  arithmetic matters (`time.Unix`, `Time.Sub`) is modelled with explicit
  wrap-around and saturation.
* Go `uint` identifiers are `Nat`.
* A Go method on a collaborator that may fail, `f(args) (T, error)`, is a
  function `args → σ → Except String T × σ` on the collaborator state `σ`.
* A `*models.HTTPError` result is `Option HTTPError` (`none` is Go `nil`).
* The mutex, the per-call deadlines and the fire-and-forget
  `pos.NotifyTransactionUpdate` goroutine do not touch the repository and are
  not part of the state.
-/

namespace XMRpos

/-! ## Time -/

/-- Instant of a Go `time.Time` without monotonic reading: nanoseconds since
the zero Time, January 1 of year 1, 00:00:00 UTC. The location is not kept. -/
structure Time where
  nanos : Int
deriving DecidableEq, Repr

/-- Go `time.Second`, a `Duration` in nanoseconds. -/
def Second : Int := 1000000000

/-- Go `time.Minute`. -/
def Minute : Int := 60 * Second

/-- Smallest `Duration` (an `int64` of nanoseconds). -/
def minDuration : Int := -9223372036854775808

/-- Largest `Duration`. -/
def maxDuration : Int := 9223372036854775807

/-- Seconds from the zero Time to the Unix epoch (`unixToInternal` in package time). -/
def unixToInternal : Int := 62135596800

/-- Two's complement reduction of an integer to `int64`. -/
def wrapInt64 (x : Int) : Int := (x + 9223372036854775808) % 18446744073709551616 - 9223372036854775808

/-- Go `t.IsZero()`. -/
def Time.IsZero (t : Time) : Bool := t.nanos == 0

/-- Go `time.Unix(sec, 0)`: the internal second count is `sec + unixToInternal`
computed in `int64`. -/
def Time.Unix (sec : Int) : Time := ⟨wrapInt64 (sec + unixToInternal) * Second⟩

/-- Go `t.Sub(u)`: the difference as a `Duration`, saturated at the `int64` bounds. -/
def Time.Sub (t u : Time) : Int :=
  let d := t.nanos - u.nanos
  if d < minDuration then minDuration else if maxDuration < d then maxDuration else d

/-- Go `time.Since(t)` when the clock reads `now`. -/
def Time.Since (now t : Time) : Int := now.Sub t

/-- Go `t.Add(d)` for a duration of `d` nanoseconds (away from the ends of the time line). -/
def Time.Add (t : Time) (d : Int) : Time := ⟨t.nanos + d⟩

/-! ## Data model (`core/models`, `thirdparty/moneropay`, `core/config`) -/

namespace models

/-- Modelled from the spec: `models.SubTransaction`, a row of the sub-payment table (the
declarations of core/models are not among the sources). The fields are those of the
SubTransaction entity of the specification, under the names and with the types used by the
callback service. -/
structure SubTransaction where
  ID : Nat
  TransactionID : Nat
  Amount : Int
  Confirmations : Int
  DoubleSpendSeen : Bool
  Fee : Int
  Height : Int
  Timestamp : Time
  TxHash : String
  UnlockTime : Int
  Locked : Bool
deriving DecidableEq, Repr

/-- Modelled from the spec: `models.Transaction`, a transaction together with its preloaded
sub-payments (the declarations of core/models are not among the sources). The fields are
those of the Transaction entity of the specification that the callback service and its store
read or write; `SubAddress` is the optional receive address. -/
structure Transaction where
  ID : Nat
  CreatedAt : Time
  Amount : Int
  RequiredConfirmations : Int
  SubAddress : Option String
  Accepted : Bool
  Confirmed : Bool
  SubTransactions : List SubTransaction
deriving DecidableEq, Repr

/-- Modelled from the spec: `models.HTTPError`, the failure signal returned by the service
entry points: an HTTP status code and a message. -/
structure HTTPError where
  Code : Nat
  Message : String
deriving DecidableEq, Repr

/-- Modelled from the spec: `models.NewHTTPError`, the constructor of the failure signal. -/
def NewHTTPError (code : Nat) (message : String) : HTTPError := ⟨code, message⟩

end models

namespace moneropay

/-- Modelled from the spec: `moneropay.Transaction`, one observed transfer of a status
observation (the moneropay client package is not among the sources). -/
structure Transaction where
  Amount : Int
  Confirmations : Int
  DoubleSpendSeen : Bool
  Fee : Int
  Height : Int
  Timestamp : Time
  TxHash : String
  UnlockTime : Int
  Locked : Bool
deriving DecidableEq, Repr

/-- Modelled from the spec: `moneropay.Covered`, the covered total and the covered unlocked
amount of an observation. -/
structure Covered where
  Total : Int
  Unlocked : Int
deriving DecidableEq, Repr

/-- Modelled from the spec: `moneropay.Amount`, the expected and covered amounts of an
observation. -/
structure Amount where
  Expected : Int
  Covered : Covered
deriving DecidableEq, Repr

/-- Modelled from the spec: `moneropay.ReceiveAddressResponse`, the external status
observation: the amounts and the list of observed transfers. -/
structure ReceiveAddressResponse where
  Amount : Amount
  Transactions : List Transaction
deriving DecidableEq, Repr

end moneropay

/-- Go `http.StatusBadRequest`. -/
def StatusBadRequest : Nat := 400
/-- Go `http.StatusUnauthorized`. -/
def StatusUnauthorized : Nat := 401
/-- Go `http.StatusNotFound`. -/
def StatusNotFound : Nat := 404
/-- Go `http.StatusInternalServerError`. -/
def StatusInternalServerError : Nat := 500

/-- Modelled from the spec: the part of `config.Config` read by the callback service (the
configuration package is not among the sources): the two shared secrets. -/
structure Config where
  JWTMoneroPaySecret : String
  JWTLwsToken : String
deriving DecidableEq, Repr

/-- Identifier block of `LwsTxInfo`. -/
structure LwsTxID where
  High : Int
  Low : Int
deriving DecidableEq, Repr

/-- Nested transfer description of a wallet hook (`LwsTxInfo`). -/
structure LwsTxInfo where
  ID : LwsTxID
  Block : Option Int
  Index : Option Int
  Amount : Int
  Timestamp : Int
  TxHash : String
  TxPrefixHash : String
  TxPublic : String
  RctMask : String
  PaymentID : String
  UnlockTime : Int
  MixinCount : Int
  Coinbase : Bool
deriving DecidableEq, Repr

/-- Wallet hook payload (`LwsHookRequest`); the free-form `Extra` value is kept as raw text. -/
structure LwsHookRequest where
  Event : String
  PaymentID : String
  Token : String
  Confirmations : Int
  EventID : String
  ID : String
  Amount : Int
  Height : Option Int
  TxHash : String
  Timestamp : Option Time
  TxInfo : Option LwsTxInfo
  Extra : Option String
deriving DecidableEq, Repr

/-- A non-nil `context.Context`; deadlines are not modelled. -/
inductive Context where
  | background : Context
deriving DecidableEq, Repr

/-- The three readings of the wall clock made by one `HandleLwsHook` call. -/
structure Clock where
  /-- The reading `time.Now().UTC()` on entry. -/
  atEntry : Time
  /-- The reading inside `time.Since(eventTimestamp)`. -/
  atStaleCheck : Time
  /-- The reading `time.Now()` of the candidate lookup. -/
  atLookup : Time
deriving DecidableEq, Repr

/-! ## Collaborator interfaces -/

/-- Modelled from the spec: the `CallbackRepository` interface (its declaration is not among
the sources), over a repository state `σ`. The methods are the six that service.go calls,
with the argument and result types of the call sites; they are the operations of the
Transaction Store contract of the specification. -/
structure CallbackRepository (σ : Type) where
  FindTransactionByID : Nat → σ → Except String models.Transaction × σ
  CreateSubTransaction : models.SubTransaction → σ → Except String models.SubTransaction × σ
  UpdateSubTransaction : models.SubTransaction → σ → Except String models.SubTransaction × σ
  UpdateTransaction : models.Transaction → σ → Except String models.Transaction × σ
  FindUnconfirmedTransactions : σ → Except String (List models.Transaction) × σ
  FindRecentPendingTransactionsByAmount : Int → Time → σ → Except String (List models.Transaction) × σ

/-- Modelled from the spec: the status query of `moneropay.MoneroPayAPIClient` (the client
is not among the sources), over a client state `τ`: it returns an error, a nil response, or
a response. -/
structure MoneroPayAPIClient (τ : Type) where
  GetReceiveAddress : String → τ → Except String (Option moneropay.ReceiveAddressResponse) × τ

/-! ## `processTransaction` -/

/-- The sub-payment built from one observed transfer (service.go lines 126-137); its `ID` is unset. -/
def newSubTransaction (transaction : models.Transaction) (subTxToProcess : moneropay.Transaction) :
    models.SubTransaction :=
  { ID := 0
    TransactionID := transaction.ID
    Amount := subTxToProcess.Amount
    Confirmations := subTxToProcess.Confirmations
    DoubleSpendSeen := subTxToProcess.DoubleSpendSeen
    Fee := subTxToProcess.Fee
    Height := subTxToProcess.Height
    Timestamp := subTxToProcess.Timestamp
    TxHash := subTxToProcess.TxHash
    UnlockTime := subTxToProcess.UnlockTime
    Locked := subTxToProcess.Locked }

/-- The create-or-update loop of `processTransaction` (lines 124-162). The lookup goes
through `transaction.SubTransactions`, the snapshot loaded before the loop. -/
def upsertSubTransactions {σ : Type} (repo : CallbackRepository σ) (transaction : models.Transaction) :
    List moneropay.Transaction → σ → Option models.HTTPError × σ
  | [], s => (none, s)
  | subTxToProcess :: rest, s =>
    let subTransaction := newSubTransaction transaction subTxToProcess
    match transaction.SubTransactions.find? (fun subTx => subTx.TxHash == subTransaction.TxHash) with
    | none =>
      match repo.CreateSubTransaction subTransaction s with
      | (.error err, s1) =>
        (some (models.NewHTTPError StatusInternalServerError
          ("Failed to create subtransaction: " ++ err)), s1)
      | (.ok _, s1) => upsertSubTransactions repo transaction rest s1
    | some subTx =>
      match repo.UpdateSubTransaction { subTransaction with ID := subTx.ID } s with
      | (.error err, s1) =>
        (some (models.NewHTTPError StatusInternalServerError
          ("Failed to update subtransaction: " ++ err)), s1)
      | (.ok _, s1) => upsertSubTransactions repo transaction rest s1

/-- The value of `allAccepted` (lines 170-181). -/
def allAccepted (transaction : models.Transaction) (transactionToProcess : moneropay.ReceiveAddressResponse) :
    Bool :=
  let acc := transaction.SubTransactions.all
    (fun subTx => !decide (subTx.Confirmations < transaction.RequiredConfirmations))
  if transactionToProcess.Amount.Covered.Total < transaction.Amount then false else acc

/-- The value of `allConfirmed` (lines 185-196). -/
def allConfirmed (transaction : models.Transaction) (transactionToProcess : moneropay.ReceiveAddressResponse) :
    Bool :=
  let conf := transaction.SubTransactions.all (fun subTx => !decide (subTx.Confirmations < 10))
  if transactionToProcess.Amount.Covered.Unlocked < transaction.Amount then false else conf

/-- Go `CallbackService.processTransaction`. -/
def processTransaction {σ : Type} (repo : CallbackRepository σ) (transactionID : Nat)
    (transactionToProcess : moneropay.ReceiveAddressResponse) (s : σ) : Option models.HTTPError × σ :=
  match repo.FindTransactionByID transactionID s with
  | (.error _, s1) => (some (models.NewHTTPError StatusNotFound "Transaction not found"), s1)
  | (.ok transaction, s1) =>
    match upsertSubTransactions repo transaction transactionToProcess.Transactions s1 with
    | (some httpErr, s2) => (some httpErr, s2)
    | (none, s2) =>
      match repo.FindTransactionByID transaction.ID s2 with
      | (.error _, s3) =>
        (some (models.NewHTTPError StatusNotFound "Transaction not found after update"), s3)
      | (.ok transaction, s3) =>
        let transaction := { transaction with Accepted := allAccepted transaction transactionToProcess }
        let transaction := { transaction with Confirmed := allConfirmed transaction transactionToProcess }
        match repo.UpdateTransaction transaction s3 with
        | (.error err, s4) =>
          (some (models.NewHTTPError StatusInternalServerError
            ("Failed to update transaction: " ++ err)), s4)
        | (.ok _, s4) => (none, s4)

/-! ## `checkUnconfirmedTransactions` -/

/-- The loop of one sweep pass (lines 97-113) over the repository state and the client state. -/
def sweepTransactions {σ τ : Type} (repo : CallbackRepository σ) (moneroPay : MoneroPayAPIClient τ) :
    List models.Transaction → σ × τ → σ × τ
  | [], st => st
  | tx :: rest, (s, m) =>
    match tx.SubAddress with
    | none => sweepTransactions repo moneroPay rest (s, m)
    | some subAddress =>
      match moneroPay.GetReceiveAddress subAddress m with
      | (.error _, m1) => sweepTransactions repo moneroPay rest (s, m1)
      | (.ok none, m1) => sweepTransactions repo moneroPay rest (s, m1)
      | (.ok (some moneroStatus), m1) =>
        sweepTransactions repo moneroPay rest ((processTransaction repo tx.ID moneroStatus s).2, m1)

/-- Go `CallbackService.checkUnconfirmedTransactions`. -/
def checkUnconfirmedTransactions {σ τ : Type} (repo : CallbackRepository σ)
    (moneroPay : MoneroPayAPIClient τ) (st : σ × τ) : σ × τ :=
  match repo.FindUnconfirmedTransactions st.1 with
  | (.error _, s1) => (s1, st.2)
  | (.ok unconfirmed, s1) => sweepTransactions repo moneroPay unconfirmed (s1, st.2)

/-! ## `HandleLwsHook` -/

/-- The resolved amount (lines 257-262). -/
def resolvedAmount (payload : LwsHookRequest) : Int :=
  match payload.TxInfo with
  | none => payload.Amount
  | some txInfo => if payload.Amount == 0 then txInfo.Amount else payload.Amount

/-- The resolved hash (lines 258-265). -/
def resolvedTxHash (payload : LwsHookRequest) : String :=
  match payload.TxInfo with
  | none => payload.TxHash
  | some txInfo => if payload.TxHash == "" then txInfo.TxHash else payload.TxHash

/-- The resolved event timestamp (lines 256-272) when the clock reads `now` on entry. -/
def resolvedTimestamp (now : Time) (payload : LwsHookRequest) : Time :=
  let eventTimestamp :=
    match payload.TxInfo with
    | none => now
    | some txInfo => if txInfo.Timestamp > 0 then Time.Unix txInfo.Timestamp else now
  match payload.Timestamp with
  | none => eventTimestamp
  | some ts => if !ts.IsZero then ts else eventTimestamp

/-- The height of the synthesized transfer (lines 301-306). -/
def resolvedHeight (payload : LwsHookRequest) : Int :=
  match payload.Height with
  | some height => height
  | none =>
    match payload.TxInfo with
    | none => 0
    | some txInfo =>
      match txInfo.Block with
      | some block => block
      | none => 0

/-- The synthesized single-transfer observation (lines 308-329). -/
def lwsReceive (payload : LwsHookRequest) (amount : Int) (txHash : String) (ts : Time) :
    moneropay.ReceiveAddressResponse :=
  { Amount := { Expected := amount, Covered := { Total := amount, Unlocked := 0 } }
    Transactions :=
      [{ Amount := amount
         Confirmations := payload.Confirmations
         DoubleSpendSeen := false
         Fee := 0
         Height := resolvedHeight payload
         Timestamp := ts
         TxHash := txHash
         UnlockTime := 0
         Locked := payload.Confirmations == 0 }] }

/-- Go `CallbackService.HandleLwsHook`. -/
def HandleLwsHook {σ : Type} (repo : CallbackRepository σ) (config : Config) (clock : Clock)
    (ctx : Option Context) (jwtToken : String) (payload : LwsHookRequest) (s : σ) :
    Option models.HTTPError × σ :=
  match ctx with
  | none => (some (models.NewHTTPError StatusInternalServerError "context required"), s)
  | some _ =>
    let eventTimestamp := resolvedTimestamp clock.atEntry payload
    let amount := resolvedAmount payload
    let txHash := resolvedTxHash payload
    if amount == 0 || txHash == "" then
      (some (models.NewHTTPError StatusBadRequest "amount and tx_hash are required"), s)
    else if Time.Since clock.atStaleCheck eventTimestamp > Minute then
      (some (models.NewHTTPError StatusUnauthorized "Stale LWS payload"), s)
    else if jwtToken != config.JWTLwsToken then
      (some (models.NewHTTPError StatusUnauthorized "Invalid token"), s)
    else
      match repo.FindRecentPendingTransactionsByAmount amount (clock.atLookup.Add (-1 * Minute)) s with
      | (.error _, s1) =>
        (some (models.NewHTTPError StatusUnauthorized "Unable to resolve transaction for LWS hook"), s1)
      | (.ok candidates, s1) =>
        match candidates with
        | [candidate] =>
          processTransaction repo candidate.ID (lwsReceive payload amount txHash eventTimestamp) s1
        | _ =>
          (some (models.NewHTTPError StatusUnauthorized
            "Unable to uniquely resolve transaction for LWS hook"), s1)

/-! ## The repository and the status source -/

/-- Tables of the transaction store. -/
structure DB where
  /-- Transaction rows; the `SubTransactions` field of a row is not a column and stays empty. -/
  transactions : List models.Transaction
  /-- Sub-payment rows in insertion order. -/
  subTransactions : List models.SubTransaction
  /-- Next value of the sub-payment primary key. -/
  nextSubID : Nat
deriving DecidableEq, Repr

/-- A call received by the repository. -/
inductive StoreCall where
  | findTransactionByID (id : Nat)
  | createSubTransaction (sub : models.SubTransaction)
  | updateSubTransaction (sub : models.SubTransaction)
  | updateTransaction (tx : models.Transaction)
  | findUnconfirmedTransactions
  | findRecentPendingTransactionsByAmount (amount : Int) (since : Time)
deriving DecidableEq, Repr

/-- State of the in-memory repository: the tables, the outcomes scheduled for the coming
calls (`some err` makes the call fail with `err`, `none` or an exhausted schedule lets it
run), and the calls received so far. -/
structure Store where
  db : DB
  faults : List (Option String)
  log : List StoreCall
deriving DecidableEq, Repr

/-- Primary-key discipline of the sub-payment table: keys are pairwise distinct and below the
next key to be handed out. -/
def DB.WF (db : DB) : Prop :=
  (db.subTransactions.map (fun r => r.ID)).Nodup ∧ ∀ r ∈ db.subTransactions, r.ID < db.nextSubID

/-- Load a transaction with its sub-payments preloaded, as `findById` of the store does. -/
def DB.load (db : DB) (id : Nat) : Option models.Transaction :=
  (db.transactions.find? (fun t => t.ID == id)).map
    (fun t => { t with SubTransactions := db.subTransactions.filter (fun r => r.TransactionID == id) })

/-- Insert a sub-payment row under a fresh primary key. -/
def DB.insertSub (db : DB) (sub : models.SubTransaction) : DB :=
  { db with
    subTransactions := db.subTransactions ++ [{ sub with ID := db.nextSubID }]
    nextSubID := db.nextSubID + 1 }

/-- Overwrite the sub-payment row that has the primary key of `sub`. -/
def DB.updateSub (db : DB) (sub : models.SubTransaction) : DB :=
  { db with subTransactions := db.subTransactions.map (fun r => if r.ID == sub.ID then sub else r) }

/-- Overwrite the columns of the transaction row that has the primary key of `tx`. -/
def DB.saveTransaction (db : DB) (tx : models.Transaction) : DB :=
  { db with
    transactions := db.transactions.map
      (fun t => if t.ID == tx.ID then { tx with SubTransactions := [] } else t) }

/-- Run one repository call: log it, consume one scheduled outcome, and either fail without
touching the tables or apply `run` to them. -/
def Store.exec {α : Type} (s : Store) (call : StoreCall) (run : DB → Except String α × DB) :
    Except String α × Store :=
  match s.faults with
  | some err :: rest => (.error err, { s with faults := rest, log := s.log ++ [call] })
  | none :: rest =>
    ((run s.db).1, { db := (run s.db).2, faults := rest, log := s.log ++ [call] })
  | [] => ((run s.db).1, { db := (run s.db).2, faults := [], log := s.log ++ [call] })

/-- Modelled from the spec: the implementation of `CallbackRepository` (the callback
package's repository.go and the table declarations of core/models are not part of the
sources at hand). It follows the Transaction Store contract of the specification:
`findById` loads a transaction with its sub-payments and fails when it is absent,
`createSubPayment` inserts a row under a fresh identity, `updateSubPayment` overwrites the
row with the given identity, `updateTransaction` persists the transaction's own columns,
`findUnconfirmed` returns the transactions that are not confirmed,
`findRecentPendingByAmount` returns the transactions of exactly that amount that are neither
accepted nor confirmed and were created at or after `since`; every operation may fail with a
store error and then changes nothing. -/
def memRepo : CallbackRepository Store where
  FindTransactionByID := fun id s =>
    s.exec (.findTransactionByID id) (fun db =>
      match db.load id with
      | some t => (.ok t, db)
      | none => (.error "record not found", db))
  CreateSubTransaction := fun sub s =>
    s.exec (.createSubTransaction sub) (fun db =>
      (.ok { sub with ID := db.nextSubID }, db.insertSub sub))
  UpdateSubTransaction := fun sub s =>
    s.exec (.updateSubTransaction sub) (fun db => (.ok sub, db.updateSub sub))
  UpdateTransaction := fun tx s =>
    s.exec (.updateTransaction tx) (fun db => (.ok tx, db.saveTransaction tx))
  FindUnconfirmedTransactions := fun s =>
    s.exec .findUnconfirmedTransactions (fun db =>
      (.ok ((db.transactions.filter (fun t => !t.Confirmed)).filterMap (fun t => db.load t.ID)), db))
  FindRecentPendingTransactionsByAmount := fun amount since s =>
    s.exec (.findRecentPendingTransactionsByAmount amount since) (fun db =>
      (.ok (db.transactions.filter (fun t =>
        t.Amount == amount && !t.Accepted && !t.Confirmed &&
          decide (since.nanos ≤ t.CreatedAt.nanos))), db))

/-- State of the scripted status source: the answers it will give to the coming queries
(an exhausted script answers with a transport error) and the addresses queried so far. -/
structure Source where
  answers : List (Except String (Option moneropay.ReceiveAddressResponse))
  queried : List String

/-- Modelled from the spec: the External Status Source behind
`moneropay.MoneroPayAPIClient.GetReceiveAddress` (the client is not part of the sources at
hand): a deadline-bound query of one address that returns an observation or fails with a
transport error. -/
def scriptedSource : MoneroPayAPIClient Source where
  GetReceiveAddress := fun address m =>
    match m.answers with
    | [] => (.error "transport error", { m with queried := m.queried ++ [address] })
    | a :: rest => (a, { answers := rest, queried := m.queried ++ [address] })

/-- Run a list of observations through `processTransaction` for one transaction, stopping at
the first merge that returns an error. -/
def mergeAll {σ : Type} (repo : CallbackRepository σ) (transactionID : Nat) :
    List moneropay.ReceiveAddressResponse → σ → Option σ
  | [], s => some s
  | obs :: rest, s =>
    match processTransaction repo transactionID obs s with
    | (none, s1) => mergeAll repo transactionID rest s1
    | (some _, _) => none

/-! ## Auxiliary definitions -/

/-- Table-level effect of the create-or-update step for one observed transfer. -/
def DB.upsert (transaction : models.Transaction) (db : DB) (t : moneropay.Transaction) : DB :=
  match transaction.SubTransactions.find? (fun subTx => subTx.TxHash == t.TxHash) with
  | none => db.insertSub (newSubTransaction transaction t)
  | some subTx => db.updateSub { newSubTransaction transaction t with ID := subTx.ID }

/-- The repository call made by the create-or-update step for one observed transfer. -/
def upsertCall (transaction : models.Transaction) (t : moneropay.Transaction) : StoreCall :=
  match transaction.SubTransactions.find? (fun subTx => subTx.TxHash == t.TxHash) with
  | none => .createSubTransaction (newSubTransaction transaction t)
  | some subTx => .updateSubTransaction { newSubTransaction transaction t with ID := subTx.ID }

/-- Table-level effect of the whole create-or-update loop. -/
def DB.upsertAll (transaction : models.Transaction) (db : DB) (ts : List moneropay.Transaction) : DB :=
  ts.foldl (DB.upsert transaction) db

/-- The transaction handed to `UpdateTransaction`: the reloaded one with both flags recomputed. -/
def withFlags (transaction : models.Transaction) (obs : moneropay.ReceiveAddressResponse) :
    models.Transaction :=
  { transaction with
    Accepted := allAccepted transaction obs
    Confirmed := allConfirmed transaction obs }

/-- Replace the confirmation threshold of the transaction `id`. -/
def DB.setRequired (db : DB) (id : Nat) (r : Int) : DB :=
  { db with
    transactions := db.transactions.map
      (fun t => if t.ID == id then { t with RequiredConfirmations := r } else t) }

/-- The resolved event timestamp in the words of the specification: the flat timestamp when
present and non-zero, otherwise the nested timestamp when positive, otherwise the time of
receipt. -/
def specEventTimestamp (receipt : Time) (payload : LwsHookRequest) : Time :=
  match payload.Timestamp with
  | some ts => if ts.nanos ≠ 0 then ts else
    match payload.TxInfo with
    | some txInfo => if 0 < txInfo.Timestamp then Time.Unix txInfo.Timestamp else receipt
    | none => receipt
  | none =>
    match payload.TxInfo with
    | some txInfo => if 0 < txInfo.Timestamp then Time.Unix txInfo.Timestamp else receipt
    | none => receipt

/-- The transactions of a sweep whose status query was answered with an observation, each
with that observation: the transactions that have a receive address are paired, in list
order, with the answers of the scripted source. -/
def responded (unconfirmed : List models.Transaction)
    (answers : List (Except String (Option moneropay.ReceiveAddressResponse))) :
    List (Nat × moneropay.ReceiveAddressResponse) :=
  ((unconfirmed.filter (fun tx => tx.SubAddress.isSome)).zip answers).filterMap
    (fun p =>
      match p.2 with
      | .ok (some moneroStatus) => some (p.1.ID, moneroStatus)
      | _ => none)

/-- The row written for an observed transfer under the primary key `i`. -/
def subFor (transaction : models.Transaction) (t : moneropay.Transaction) (i : Nat) :
    models.SubTransaction :=
  { newSubTransaction transaction t with ID := i }

/-- What the updates of the loop make of a row that was in the table before the loop. -/
def rewriteRow (transaction : models.Transaction) :
    List moneropay.Transaction → models.SubTransaction → models.SubTransaction
  | [], x => x
  | t :: ts, x =>
    match transaction.SubTransactions.find? (fun subTx => subTx.TxHash == t.TxHash) with
    | some r => rewriteRow transaction ts (if x.ID == r.ID then subFor transaction t r.ID else x)
    | none => rewriteRow transaction ts x

/-- The rows inserted by the loop, in order, when the next primary key is `n`. -/
def createdRows (transaction : models.Transaction) :
    List moneropay.Transaction → Nat → List models.SubTransaction
  | [], _ => []
  | t :: ts, n =>
    match transaction.SubTransactions.find? (fun subTx => subTx.TxHash == t.TxHash) with
    | some _ => createdRows transaction ts n
    | none => subFor transaction t n :: createdRows transaction ts (n + 1)

/-- A stored sub-payment carries the hash and every scalar field of an observed transfer. -/
def Mirrors (r : models.SubTransaction) (t : moneropay.Transaction) : Prop :=
  r.TxHash = t.TxHash ∧ r.Amount = t.Amount ∧ r.Confirmations = t.Confirmations ∧
    r.Fee = t.Fee ∧ r.Height = t.Height ∧ r.Timestamp = t.Timestamp ∧
    r.UnlockTime = t.UnlockTime ∧ r.DoubleSpendSeen = t.DoubleSpendSeen ∧ r.Locked = t.Locked

/-- The per-hash uniqueness invariant for the transaction `id`: its stored sub-payments have
pairwise distinct hashes. -/
def DB.UniqueHashes (db : DB) (id : Nat) : Prop :=
  ((db.subTransactions.filter (fun r => r.TransactionID == id)).map (fun r => r.TxHash)).Nodup

instance (db : DB) : Decidable db.WF := by
  unfold DB.WF
  infer_instance

instance (db : DB) (id : Nat) : Decidable (db.UniqueHashes id) := by
  unfold DB.UniqueHashes
  infer_instance

/-- The resolved amount in the words of the specification: the flat amount when it is
non-zero, otherwise the amount of the nested transfer description. -/
def specAmount (payload : LwsHookRequest) : Int :=
  if payload.Amount ≠ 0 then payload.Amount
  else (payload.TxInfo.map (fun txInfo => txInfo.Amount)).getD payload.Amount

/-- The resolved hash in the words of the specification: the flat hash when it is non-empty,
otherwise the hash of the nested transfer description. -/
def specTxHash (payload : LwsHookRequest) : String :=
  if payload.TxHash ≠ "" then payload.TxHash
  else (payload.TxInfo.map (fun txInfo => txInfo.TxHash)).getD payload.TxHash

/-- The height in the words of the specification: the flat height when present, otherwise
the block of the nested transfer description when present, otherwise 0. -/
def specHeight (payload : LwsHookRequest) : Int :=
  match payload.Height, payload.TxInfo.bind (fun txInfo => txInfo.Block) with
  | some height, _ => height
  | none, some block => block
  | none, none => 0

/-- The single-transfer observation that the wallet hook hands to the merger, in the words of
the specification, for a payload received at `receipt`. -/
def specObservation (receipt : Time) (payload : LwsHookRequest) : moneropay.ReceiveAddressResponse :=
  { Amount :=
      { Expected := specAmount payload
        Covered := { Total := specAmount payload, Unlocked := 0 } }
    Transactions :=
      [{ Amount := specAmount payload
         Confirmations := payload.Confirmations
         DoubleSpendSeen := false
         Fee := 0
         Height := specHeight payload
         Timestamp := specEventTimestamp receipt payload
         TxHash := specTxHash payload
         UnlockTime := 0
         Locked := decide (payload.Confirmations = 0) }] }

/-! ## Example data -/

/-- The transaction of the worked example: it expects 1,000,000 and requires 2 confirmations. -/
def exampleTransaction : models.Transaction :=
  { ID := 1, CreatedAt := ⟨0⟩, Amount := 1000000, RequiredConfirmations := 2,
    SubAddress := some "addr1", Accepted := false, Confirmed := false, SubTransactions := [] }

/-- A store that holds the example transaction and no sub-payment. -/
def exampleStore : Store :=
  { db := { transactions := [exampleTransaction], subTransactions := [], nextSubID := 1 }
    faults := [], log := [] }

/-- An observed transfer of 1,000,000 with the given hash and confirmation count. -/
def exampleTransfer (txHash : String) (confirmations : Int) : moneropay.Transaction :=
  { Amount := 1000000, Confirmations := confirmations, DoubleSpendSeen := false, Fee := 0,
    Height := 5, Timestamp := ⟨7⟩, TxHash := txHash, UnlockTime := 0, Locked := false }

/-- An observation with the given transfers and covered amounts. -/
def exampleObservation (transfers : List moneropay.Transaction) (total unlocked : Int) :
    moneropay.ReceiveAddressResponse :=
  { Amount := { Expected := 1000000, Covered := { Total := total, Unlocked := unlocked } }
    Transactions := transfers }

/-- The example store with a schedule of outcomes for the coming store operations. -/
def exampleFaultyStore (faults : List (Option String)) : Store :=
  { exampleStore with faults := faults }

/-- A second pending transaction of the same amount as the example transaction. -/
def exampleTwin : models.Transaction :=
  { exampleTransaction with ID := 2, SubAddress := none }

/-- A store that holds two pending transactions of the same amount. -/
def ambiguousStore : Store :=
  { db := { transactions := [exampleTransaction, exampleTwin], subTransactions := [], nextSubID := 1 }
    faults := [], log := [] }

/-- Configuration of the examples. -/
def exampleConfig : Config := { JWTMoneroPaySecret := "moneropay-secret", JWTLwsToken := "lws-token" }

/-- A flat wallet hook payload with the given amount and event timestamp. -/
def examplePayload (amount : Int) (timestamp : Option Time) : LwsHookRequest :=
  { Event := "tx-confirmation", PaymentID := "", Token := "", Confirmations := 1, EventID := "",
    ID := "", Amount := amount, Height := some 5, TxHash := "h1", Timestamp := timestamp,
    TxInfo := none, Extra := none }

/-- A clock that reads the same instant, `nanos`, at the three readings of a call. -/
def exampleClock (nanos : Int) : Clock :=
  { atEntry := ⟨nanos⟩, atStaleCheck := ⟨nanos⟩, atLookup := ⟨nanos⟩ }

/-- A store for the sweep example: the example transaction, a transaction without receive
address, and two more transactions with one. -/
def sweepStore : Store :=
  { db :=
      { transactions :=
          [exampleTransaction, exampleTwin,
            { exampleTransaction with ID := 3, SubAddress := some "addr3" },
            { exampleTransaction with ID := 4, SubAddress := some "addr4" }]
        subTransactions := [], nextSubID := 1 }
    faults := [], log := [] }

/-- A status source for the sweep example: it answers the first query with an observation,
fails on the second and answers the third with an observation. -/
def sweepSource : Source :=
  { answers :=
      [.ok (some (exampleObservation [exampleTransfer "h1" 1] 1000000 0)),
        .error "timeout",
        .ok (some (exampleObservation [exampleTransfer "h4" 3] 1000000 0))]
    queried := [] }

/-- A wallet hook payload in the nested encoding: the flat amount, hash, height and timestamp
are absent and the nested transfer description carries them; no confirmation yet. -/
def exampleNestedPayload : LwsHookRequest :=
  { Event := "tx-confirmation", PaymentID := "", Token := "", Confirmations := 0, EventID := "",
    ID := "", Amount := 0, Height := none, TxHash := "", Timestamp := none,
    TxInfo := some
      { ID := { High := 0, Low := 7 }, Block := some 42, Index := some 0, Amount := 1000000,
        Timestamp := 0, TxHash := "h9", TxPrefixHash := "", TxPublic := "", RctMask := "",
        PaymentID := "", UnlockTime := 0, MixinCount := 15, Coinbase := false }
    Extra := none }

/-! ## Theorems -/

/-! ## The merge on the in-memory repository -/

theorem memRepo_find (id : Nat) (s : Store) :
    memRepo.FindTransactionByID id s =
      s.exec (.findTransactionByID id) (fun db =>
        match db.load id with
        | some t => (.ok t, db)
        | none => (.error "record not found", db)) := rfl

theorem memRepo_create (sub : models.SubTransaction) (s : Store) :
    memRepo.CreateSubTransaction sub s =
      s.exec (.createSubTransaction sub) (fun db =>
        (.ok { sub with ID := db.nextSubID }, db.insertSub sub)) := rfl

theorem memRepo_updateSub (sub : models.SubTransaction) (s : Store) :
    memRepo.UpdateSubTransaction sub s =
      s.exec (.updateSubTransaction sub) (fun db => (.ok sub, db.updateSub sub)) := rfl

theorem memRepo_update (tx : models.Transaction) (s : Store) :
    memRepo.UpdateTransaction tx s =
      s.exec (.updateTransaction tx) (fun db => (.ok tx, db.saveTransaction tx)) := rfl

theorem exec_fault {α : Type} (s : Store) (c : StoreCall) (run : DB → Except String α × DB)
    (e : String) (rest : List (Option String)) (hf : s.faults = some e :: rest) :
    s.exec c run = (.error e, { s with faults := rest, log := s.log ++ [c] }) := by
  simp [Store.exec, hf]

theorem exec_run {α : Type} (s : Store) (c : StoreCall) (run : DB → Except String α × DB)
    (hf : ∀ e rest, s.faults ≠ some e :: rest) :
    s.exec c run = ((run s.db).1, { db := (run s.db).2, faults := s.faults.tail, log := s.log ++ [c] }) := by
  rcases hfs : s.faults with _ | ⟨_ | e, rest⟩
  · simp [Store.exec, hfs]
  · simp [Store.exec, hfs]
  · exact absurd hfs (hf e rest)

theorem exec_cases {α : Type} (s : Store) (c : StoreCall) (run : DB → Except String α × DB) :
    (∃ e rest, s.faults = some e :: rest ∧
      s.exec c run = (.error e, { s with faults := rest, log := s.log ++ [c] })) ∨
    ((∀ e rest, s.faults ≠ some e :: rest) ∧
      s.exec c run =
        ((run s.db).1, { db := (run s.db).2, faults := s.faults.tail, log := s.log ++ [c] })) := by
  by_cases h : ∃ e rest, s.faults = some e :: rest
  · obtain ⟨e, rest, hf⟩ := h
    exact Or.inl ⟨e, rest, hf, exec_fault s c run e rest hf⟩
  · have h' : ∀ e rest, s.faults ≠ some e :: rest := fun e rest hf => h ⟨e, rest, hf⟩
    exact Or.inr ⟨h', exec_run s c run h'⟩

theorem upsertSubTransactions_cons_none {σ : Type} (repo : CallbackRepository σ)
    (tx : models.Transaction) (t : moneropay.Transaction) (rest : List moneropay.Transaction) (s : σ)
    (h : tx.SubTransactions.find? (fun subTx => subTx.TxHash == t.TxHash) = none) :
    upsertSubTransactions repo tx (t :: rest) s =
      match repo.CreateSubTransaction (newSubTransaction tx t) s with
      | (.error err, s1) =>
        (some (models.NewHTTPError StatusInternalServerError
          ("Failed to create subtransaction: " ++ err)), s1)
      | (.ok _, s1) => upsertSubTransactions repo tx rest s1 := by
  have h' : tx.SubTransactions.find? (fun subTx => subTx.TxHash == (newSubTransaction tx t).TxHash)
      = none := h
  rw [upsertSubTransactions]
  simp only [h']

theorem upsertSubTransactions_cons_some {σ : Type} (repo : CallbackRepository σ)
    (tx : models.Transaction) (t : moneropay.Transaction) (rest : List moneropay.Transaction) (s : σ)
    (r : models.SubTransaction)
    (h : tx.SubTransactions.find? (fun subTx => subTx.TxHash == t.TxHash) = some r) :
    upsertSubTransactions repo tx (t :: rest) s =
      match repo.UpdateSubTransaction { newSubTransaction tx t with ID := r.ID } s with
      | (.error err, s1) =>
        (some (models.NewHTTPError StatusInternalServerError
          ("Failed to update subtransaction: " ++ err)), s1)
      | (.ok _, s1) => upsertSubTransactions repo tx rest s1 := by
  have h' : tx.SubTransactions.find? (fun subTx => subTx.TxHash == (newSubTransaction tx t).TxHash)
      = some r := h
  rw [upsertSubTransactions]
  simp only [h']

/-- A scheduled fault makes the step fail with code 500 and leaves the tables alone. -/
theorem upsert_cons_fault (tx : models.Transaction) (t : moneropay.Transaction)
    (rest : List moneropay.Transaction) (s : Store) (e : String) (fs : List (Option String))
    (hf : s.faults = some e :: fs) :
    ∃ msg, upsertSubTransactions memRepo tx (t :: rest) s =
      (some ⟨500, msg⟩, { db := s.db, faults := fs, log := s.log ++ [upsertCall tx t] }) := by
  cases hfind : tx.SubTransactions.find? (fun subTx => subTx.TxHash == t.TxHash) with
  | none =>
    have hc : upsertCall tx t = .createSubTransaction (newSubTransaction tx t) := by
      simp [upsertCall, hfind]
    rw [upsertSubTransactions_cons_none _ _ _ _ _ hfind, memRepo_create, exec_fault _ _ _ e fs hf, hc]
    exact ⟨_, rfl⟩
  | some r =>
    have hc : upsertCall tx t = .updateSubTransaction { newSubTransaction tx t with ID := r.ID } := by
      simp [upsertCall, hfind]
    rw [upsertSubTransactions_cons_some _ _ _ _ _ r hfind, memRepo_updateSub, exec_fault _ _ _ e fs hf, hc]
    exact ⟨_, rfl⟩

/-- Without a scheduled fault the step applies the upsert and the loop goes on. -/
theorem upsert_cons_run (tx : models.Transaction) (t : moneropay.Transaction)
    (rest : List moneropay.Transaction) (s : Store) (hf : ∀ e fs, s.faults ≠ some e :: fs) :
    upsertSubTransactions memRepo tx (t :: rest) s =
      upsertSubTransactions memRepo tx rest
        { db := s.db.upsert tx t, faults := s.faults.tail, log := s.log ++ [upsertCall tx t] } := by
  cases hfind : tx.SubTransactions.find? (fun subTx => subTx.TxHash == t.TxHash) with
  | none =>
    have hu : s.db.upsert tx t = s.db.insertSub (newSubTransaction tx t) := by
      simp [DB.upsert, hfind]
    have hc : upsertCall tx t = .createSubTransaction (newSubTransaction tx t) := by
      simp [upsertCall, hfind]
    rw [upsertSubTransactions_cons_none _ _ _ _ _ hfind, memRepo_create, exec_run _ _ _ hf, hu, hc]
  | some r =>
    have hu : s.db.upsert tx t = s.db.updateSub { newSubTransaction tx t with ID := r.ID } := by
      simp [DB.upsert, hfind]
    have hc : upsertCall tx t = .updateSubTransaction { newSubTransaction tx t with ID := r.ID } := by
      simp [upsertCall, hfind]
    rw [upsertSubTransactions_cons_some _ _ _ _ _ r hfind, memRepo_updateSub, exec_run _ _ _ hf, hu, hc]

theorem faults_split (fs : List (Option String)) (n : Nat) :
    (∀ f ∈ fs.take n, f = none) ∨
      ∃ k e rest, k < n ∧ fs = List.replicate k none ++ some e :: rest := by
  induction n generalizing fs with
  | zero => left; simp
  | succ n ih =>
    rcases fs with _ | ⟨_ | e, fs⟩
    · left; simp
    · rcases ih fs with h | ⟨k, e, rest, hk, hfs⟩
      · left
        intro f hf
        simp only [List.take_succ_cons, List.mem_cons] at hf
        rcases hf with hf | hf
        · exact hf
        · exact h f hf
      · right
        refine ⟨k + 1, e, rest, by omega, ?_⟩
        simp [List.replicate_succ, hfs]
    · right
      exact ⟨0, e, fs, by omega, by simp⟩

/-- The loop on the in-memory repository when none of the coming outcomes is a fault. -/
theorem upsert_loop_run (tx : models.Transaction) (ts : List moneropay.Transaction) (s : Store)
    (hf : ∀ f ∈ s.faults.take ts.length, f = none) :
    upsertSubTransactions memRepo tx ts s =
      (none, { db := s.db.upsertAll tx ts, faults := s.faults.drop ts.length,
               log := s.log ++ ts.map (upsertCall tx) }) := by
  induction ts generalizing s with
  | nil => simp [upsertSubTransactions, DB.upsertAll]
  | cons t rest ih =>
    have hhead : ∀ e fs, s.faults ≠ some e :: fs := by
      intro e fs h
      have := hf (some e) (by simp [h])
      simp at this
    have hc := upsert_cons_run tx t rest s hhead
    have htail : ∀ f ∈ (s.faults.tail).take rest.length, f = none := by
      intro f hmem
      rcases hfs : s.faults with _ | ⟨g, fs⟩
      · simp [hfs] at hmem
      · apply hf f
        simp only [hfs, List.tail_cons] at hmem
        simp [hfs, hmem]
    have hrun := ih { db := s.db.upsert tx t, faults := s.faults.tail, log := s.log ++ [upsertCall tx t] } htail
    rw [hc, hrun]
    simp [DB.upsertAll, List.drop_succ_cons]

/-- The loop on the in-memory repository when the write for the transfer at index `k` is the
first one to fail. -/
theorem upsert_loop_fault (tx : models.Transaction) (ts : List moneropay.Transaction) (s : Store)
    (k : Nat) (e : String) (rest : List (Option String)) (hk : k < ts.length)
    (hf : s.faults = List.replicate k none ++ some e :: rest) :
    ∃ msg, upsertSubTransactions memRepo tx ts s =
      (some ⟨500, msg⟩,
        { db := s.db.upsertAll tx (ts.take k), faults := rest,
          log := s.log ++ (ts.take (k + 1)).map (upsertCall tx) }) := by
  induction ts generalizing s k with
  | nil => simp at hk
  | cons t tl ih =>
    cases k with
    | zero =>
      obtain ⟨msg, hc⟩ := upsert_cons_fault tx t tl s e rest (by simpa using hf)
      exact ⟨msg, by simp [hc, DB.upsertAll]⟩
    | succ k =>
      have hhead : ∀ e' fs, s.faults ≠ some e' :: fs := by
        intro e' fs h
        rw [hf] at h
        simp [List.replicate_succ] at h
      have hc := upsert_cons_run tx t tl s hhead
      obtain ⟨msg, hrun⟩ :=
        ih { db := s.db.upsert tx t, faults := s.faults.tail, log := s.log ++ [upsertCall tx t] } k
          (by simpa using hk) (by simp [hf, List.replicate_succ])
      refine ⟨msg, ?_⟩
      rw [hc, hrun]
      simp [DB.upsertAll]

/-- A loop that returns no error has applied every upsert. -/
theorem upsert_loop_ok (tx : models.Transaction) (ts : List moneropay.Transaction) (s : Store)
    (h : (upsertSubTransactions memRepo tx ts s).1 = none) :
    (upsertSubTransactions memRepo tx ts s).2.db = s.db.upsertAll tx ts ∧
      (upsertSubTransactions memRepo tx ts s).2.faults = s.faults.drop ts.length := by
  rcases faults_split s.faults ts.length with hf | ⟨k, e, rest, hk, hf⟩
  · have hrun := upsert_loop_run tx ts s hf
    simp [hrun]
  · obtain ⟨msg, hrun⟩ := upsert_loop_fault tx ts s k e rest hk hf
    rw [hrun] at h
    simp at h

/-- Whatever the outcomes, the loop has applied the upserts of an initial segment of the transfers. -/
theorem upsert_loop_some_take (tx : models.Transaction) (ts : List moneropay.Transaction) (s : Store) :
    ∃ k, (upsertSubTransactions memRepo tx ts s).2.db = s.db.upsertAll tx (ts.take k) := by
  rcases faults_split s.faults ts.length with hf | ⟨k, e, rest, hk, hf⟩
  · have hrun := upsert_loop_run tx ts s hf
    exact ⟨ts.length, by simp [hrun]⟩
  · obtain ⟨msg, hrun⟩ := upsert_loop_fault tx ts s k e rest hk hf
    exact ⟨k, by simp [hrun]⟩

theorem load_id {db : DB} {id : Nat} {tx : models.Transaction} (h : db.load id = some tx) :
    tx.ID = id := by
  unfold DB.load at h
  cases hf : db.transactions.find? (fun t => t.ID == id) with
  | none => simp [hf] at h
  | some t =>
    simp only [hf, Option.map_some', Option.some.injEq] at h
    have := List.find?_some hf
    subst h
    simpa using this

theorem load_subs {db : DB} {id : Nat} {tx : models.Transaction} (h : db.load id = some tx) :
    tx.SubTransactions = db.subTransactions.filter (fun r => r.TransactionID == id) := by
  unfold DB.load at h
  cases hf : db.transactions.find? (fun t => t.ID == id) with
  | none => simp [hf] at h
  | some t =>
    simp only [hf, Option.map_some', Option.some.injEq] at h
    subst h
    rfl

theorem find_map_replace (l : List models.Transaction) (id : Nat) (t0 new : models.Transaction)
    (hnew : new.ID = id) (h : l.find? (fun t => t.ID == id) = some t0) :
    (l.map (fun t => if t.ID == id then new else t)).find? (fun t => t.ID == id) = some new := by
  induction l with
  | nil => simp at h
  | cons a l ih =>
    by_cases ha : a.ID = id
    · have hb : (a.ID == id) = true := by simpa using ha
      have hn : (new.ID == id) = true := by simpa using hnew
      simp only [List.map_cons, hb, if_true, List.find?_cons, hn]
    · have hb : (a.ID == id) = false := by simpa using ha
      have h' : l.find? (fun t => t.ID == id) = some t0 := by
        simpa [List.find?_cons, ha] using h
      simp only [List.map_cons, hb, Bool.false_eq_true, if_false, List.find?_cons]
      exact ih h'

/-- Reading back a transaction that has just been saved. -/
theorem load_saveTransaction (db : DB) (id : Nat) (tx0 tx : models.Transaction)
    (h0 : db.load id = some tx0) (hid : tx.ID = id)
    (hsubs : tx.SubTransactions = db.subTransactions.filter (fun r => r.TransactionID == id)) :
    (db.saveTransaction tx).load id = some tx := by
  unfold DB.load at h0 ⊢
  cases hf : db.transactions.find? (fun t => t.ID == id) with
  | none => simp [hf] at h0
  | some t =>
    have := find_map_replace db.transactions id t { tx with SubTransactions := [] } hid hf
    subst hid
    simp only [DB.saveTransaction, this, Option.map_some', Option.some.injEq]
    rw [← hsubs]

/-- The body of `processTransaction`, with the flag assignments folded into `withFlags`. -/
theorem processTransaction_eq {σ : Type} (repo : CallbackRepository σ) (id : Nat)
    (obs : moneropay.ReceiveAddressResponse) (s : σ) :
    processTransaction repo id obs s =
      match repo.FindTransactionByID id s with
      | (.error _, s1) => (some (models.NewHTTPError StatusNotFound "Transaction not found"), s1)
      | (.ok transaction, s1) =>
        match upsertSubTransactions repo transaction obs.Transactions s1 with
        | (some httpErr, s2) => (some httpErr, s2)
        | (none, s2) =>
          match repo.FindTransactionByID transaction.ID s2 with
          | (.error _, s3) =>
            (some (models.NewHTTPError StatusNotFound "Transaction not found after update"), s3)
          | (.ok transaction, s3) =>
            match repo.UpdateTransaction (withFlags transaction obs) s3 with
            | (.error err, s4) =>
              (some (models.NewHTTPError StatusInternalServerError
                ("Failed to update transaction: " ++ err)), s4)
            | (.ok _, s4) => (none, s4) := rfl

/-- A merge that returns no error has loaded the transaction, applied every upsert, reloaded
the transaction and saved it with both flags recomputed. -/
theorem processTransaction_ok (id : Nat) (obs : moneropay.ReceiveAddressResponse) (s : Store)
    (h : (processTransaction memRepo id obs s).1 = none) :
    ∃ tx tx2, s.db.load id = some tx ∧
      (s.db.upsertAll tx obs.Transactions).load id = some tx2 ∧
      (processTransaction memRepo id obs s).2.db =
        (s.db.upsertAll tx obs.Transactions).saveTransaction (withFlags tx2 obs) := by
  rw [processTransaction_eq] at h ⊢
  rw [memRepo_find] at h ⊢
  rcases exec_cases s (.findTransactionByID id) (fun db =>
      match db.load id with
      | some t => (.ok t, db)
      | none => (.error "record not found", db)) with ⟨e, fs, _, hx⟩ | ⟨_, hx⟩
  · simp [hx] at h
  · cases hload : s.db.load id with
    | none => simp [hx, hload] at h
    | some tx =>
      have hid := load_id hload
      simp only [hx, hload] at h ⊢
      rcases hloop : upsertSubTransactions memRepo tx obs.Transactions
          { db := s.db, faults := s.faults.tail, log := s.log ++ [.findTransactionByID id] }
        with ⟨_ | err, s2⟩
      · have hdb := (upsert_loop_ok tx obs.Transactions _ (by rw [hloop])).1
        rw [hloop] at hdb
        simp only at hdb
        simp only [hloop] at h ⊢
        rw [memRepo_find] at h ⊢
        rcases exec_cases s2 (.findTransactionByID tx.ID) (fun db =>
            match db.load tx.ID with
            | some t => (.ok t, db)
            | none => (.error "record not found", db)) with ⟨e, fs, _, hx2⟩ | ⟨_, hx2⟩
        · simp [hx2] at h
        · cases hload2 : s2.db.load tx.ID with
          | none => simp [hx2, hload2] at h
          | some tx2 =>
            simp only [hx2, hload2] at h ⊢
            rw [memRepo_update] at h ⊢
            rcases exec_cases
                { db := s2.db, faults := s2.faults.tail, log := s2.log ++ [.findTransactionByID tx.ID] }
                (.updateTransaction (withFlags tx2 obs))
                (fun db => (.ok (withFlags tx2 obs), db.saveTransaction (withFlags tx2 obs)))
              with ⟨e, fs, _, hx3⟩ | ⟨_, hx3⟩
            · simp [hx3] at h
            · refine ⟨tx, tx2, rfl, ?_, ?_⟩
              · rw [← hdb, ← hid]; exact hload2
              · simp only [hx3]
                rw [← hdb]
      · simp [hloop] at h

theorem upsert_transactions (tx : models.Transaction) (db : DB) (t : moneropay.Transaction) :
    (db.upsert tx t).transactions = db.transactions := by
  unfold DB.upsert
  split <;> rfl

theorem upsertAll_transactions (tx : models.Transaction) (ts : List moneropay.Transaction) (db : DB) :
    (db.upsertAll tx ts).transactions = db.transactions := by
  induction ts generalizing db with
  | nil => rfl
  | cons t rest ih =>
    have : db.upsertAll tx (t :: rest) = (db.upsert tx t).upsertAll tx rest := rfl
    rw [this, ih, upsert_transactions]

/-- The scalar columns read back after the upserts are those read before. -/
theorem load_upsertAll (tx tx0 tx2 : models.Transaction) (ts : List moneropay.Transaction) (db : DB)
    (id : Nat) (h0 : db.load id = some tx0) (h2 : (db.upsertAll tx ts).load id = some tx2) :
    tx2 = { tx0 with SubTransactions := tx2.SubTransactions } := by
  unfold DB.load at h0 h2
  rw [upsertAll_transactions] at h2
  cases hf : db.transactions.find? (fun t => t.ID == id) with
  | none => simp [hf] at h0
  | some t =>
    simp only [hf, Option.map_some', Option.some.injEq] at h0 h2
    subst h0 h2
    rfl

/-- A merge that returns no error leaves a transaction that reads back as the reloaded one
with both flags recomputed, and whose other columns are those it had before the merge. -/
theorem processTransaction_load (id : Nat) (obs : moneropay.ReceiveAddressResponse) (s : Store)
    (h : (processTransaction memRepo id obs s).1 = none) :
    ∃ tx tx2, s.db.load id = some tx ∧
      (s.db.upsertAll tx obs.Transactions).load id = some tx2 ∧
      tx2 = { tx with SubTransactions := tx2.SubTransactions } ∧
      (processTransaction memRepo id obs s).2.db.load id = some (withFlags tx2 obs) := by
  obtain ⟨tx, tx2, h0, h2, hdb⟩ := processTransaction_ok id obs s h
  refine ⟨tx, tx2, h0, h2, load_upsertAll tx tx tx2 _ _ id h0 h2, ?_⟩
  rw [hdb]
  apply load_saveTransaction _ id tx2 _ h2
  · exact (load_id h2 : tx2.ID = id)
  · exact (load_subs h2 : tx2.SubTransactions = _)

theorem allAccepted_iff (tx : models.Transaction) (obs : moneropay.ReceiveAddressResponse) :
    allAccepted tx obs = true ↔
      (∀ sub ∈ tx.SubTransactions, tx.RequiredConfirmations ≤ sub.Confirmations) ∧
        tx.Amount ≤ obs.Amount.Covered.Total := by
  unfold allAccepted
  by_cases hc : obs.Amount.Covered.Total < tx.Amount
  · simp only [hc, if_true, Bool.false_eq_true, false_iff, not_and, not_le]
    intro _; trivial
  · simp only [hc, if_false, List.all_eq_true, Bool.not_eq_true', decide_eq_false_iff_not, not_lt]
    exact ⟨fun h => ⟨h, not_lt.mp hc⟩, fun h => h.1⟩

theorem allConfirmed_iff (tx : models.Transaction) (obs : moneropay.ReceiveAddressResponse) :
    allConfirmed tx obs = true ↔
      (∀ sub ∈ tx.SubTransactions, 10 ≤ sub.Confirmations) ∧
        tx.Amount ≤ obs.Amount.Covered.Unlocked := by
  unfold allConfirmed
  by_cases hc : obs.Amount.Covered.Unlocked < tx.Amount
  · simp only [hc, if_true, Bool.false_eq_true, false_iff, not_and, not_le]
    intro _; trivial
  · simp only [hc, if_false, List.all_eq_true, Bool.not_eq_true', decide_eq_false_iff_not, not_lt]
    exact ⟨fun h => ⟨h, not_lt.mp hc⟩, fun h => h.1⟩

/-- C1. After a merge in which every store operation succeeded, the persisted `accepted`
flag is true exactly when every sub-payment of the transaction as stored after the merge has
at least `requiredConfirmations` confirmations and the observation's covered total reaches
the transaction's amount; amount and threshold are those the transaction had before. -/
theorem accepted_iff_threshold_and_coverage (s : Store) (id : Nat)
    (obs : moneropay.ReceiveAddressResponse)
    (h : (processTransaction memRepo id obs s).1 = none) :
    ∃ before after, s.db.load id = some before ∧
      (processTransaction memRepo id obs s).2.db.load id = some after ∧
      after.Amount = before.Amount ∧
      after.RequiredConfirmations = before.RequiredConfirmations ∧
      (after.Accepted = true ↔
        (∀ sub ∈ after.SubTransactions, before.RequiredConfirmations ≤ sub.Confirmations) ∧
          before.Amount ≤ obs.Amount.Covered.Total) := by
  obtain ⟨tx, tx2, h0, _, hsc, hl⟩ := processTransaction_load id obs s h
  refine ⟨tx, withFlags tx2 obs, h0, hl, ?_, ?_, ?_⟩
  · show tx2.Amount = tx.Amount
    rw [hsc]
  · show tx2.RequiredConfirmations = tx.RequiredConfirmations
    rw [hsc]
  · have := allAccepted_iff tx2 obs
    have ha : tx2.Amount = tx.Amount := by rw [hsc]
    have hr : tx2.RequiredConfirmations = tx.RequiredConfirmations := by rw [hsc]
    rw [ha, hr] at this
    exact this

theorem upsert_congr (tx tx' : models.Transaction) (hid : tx.ID = tx'.ID)
    (hs : tx.SubTransactions = tx'.SubTransactions) (db : DB) (t : moneropay.Transaction) :
    db.upsert tx t = db.upsert tx' t := by
  unfold DB.upsert newSubTransaction
  rw [hid, hs]

theorem upsertAll_congr (tx tx' : models.Transaction) (hid : tx.ID = tx'.ID)
    (hs : tx.SubTransactions = tx'.SubTransactions) (db : DB) (ts : List moneropay.Transaction) :
    db.upsertAll tx ts = db.upsertAll tx' ts := by
  have : DB.upsert tx = DB.upsert tx' := by
    funext db t
    exact upsert_congr tx tx' hid hs db t
  unfold DB.upsertAll
  rw [this]

theorem upsert_setRequired (tx : models.Transaction) (db : DB) (t : moneropay.Transaction)
    (id : Nat) (r : Int) :
    (db.setRequired id r).upsert tx t = (db.upsert tx t).setRequired id r := by
  unfold DB.upsert
  split <;> rfl

theorem upsertAll_setRequired (tx : models.Transaction) (ts : List moneropay.Transaction) (db : DB)
    (id : Nat) (r : Int) :
    (db.setRequired id r).upsertAll tx ts = (db.upsertAll tx ts).setRequired id r := by
  induction ts generalizing db with
  | nil => rfl
  | cons t rest ih =>
    have h1 : ∀ d : DB, d.upsertAll tx (t :: rest) = (d.upsert tx t).upsertAll tx rest := fun _ => rfl
    rw [h1, h1, upsert_setRequired, ih]

theorem load_setRequired (db : DB) (id : Nat) (r : Int) :
    (db.setRequired id r).load id =
      (db.load id).map (fun t => { t with RequiredConfirmations := r }) := by
  unfold DB.load DB.setRequired
  simp only [List.find?_map]
  have hp : ((fun t : models.Transaction => t.ID == id) ∘
      fun t => if (t.ID == id) = true then { t with RequiredConfirmations := r } else t)
      = fun t => t.ID == id := by
    funext t
    by_cases ht : t.ID = id <;> simp [ht]
  rw [hp]
  cases hf : db.transactions.find? (fun t => t.ID == id) with
  | none => rfl
  | some t =>
    have := List.find?_some hf
    simp only [Option.map_some', this, if_true]

/-- C2. After a merge in which every store operation succeeded, the persisted `confirmed`
flag is true exactly when every sub-payment of the transaction as stored after the merge has
at least 10 confirmations and the observation's covered unlocked amount reaches the
transaction's amount. The value does not depend on `requiredConfirmations`: the same merge on
a store that differs only in that column of the transaction persists the same flag. -/
theorem confirmed_iff_finality_and_unlocked (s : Store) (id : Nat)
    (obs : moneropay.ReceiveAddressResponse)
    (h : (processTransaction memRepo id obs s).1 = none) :
    ∃ before after, s.db.load id = some before ∧
      (processTransaction memRepo id obs s).2.db.load id = some after ∧
      after.Amount = before.Amount ∧
      (after.Confirmed = true ↔
        (∀ sub ∈ after.SubTransactions, 10 ≤ sub.Confirmations) ∧
          before.Amount ≤ obs.Amount.Covered.Unlocked) ∧
      ∀ (s' : Store) (r : Int), s'.db = s.db.setRequired id r →
        (processTransaction memRepo id obs s').1 = none →
        ∃ after', (processTransaction memRepo id obs s').2.db.load id = some after' ∧
          after'.RequiredConfirmations = r ∧
          after'.SubTransactions = after.SubTransactions ∧
          after'.Confirmed = after.Confirmed := by
  obtain ⟨tx, tx2, h0, h2, hsc, hl⟩ := processTransaction_load id obs s h
  have ha : tx2.Amount = tx.Amount := by rw [hsc]
  refine ⟨tx, withFlags tx2 obs, h0, hl, ha, ?_, ?_⟩
  · have := allConfirmed_iff tx2 obs
    rw [ha] at this
    exact this
  · intro s' r hdb hs'
    obtain ⟨tx', tx2', h0', h2', _, hl'⟩ := processTransaction_load id obs s' hs'
    rw [hdb, load_setRequired, h0] at h0'
    simp only [Option.map_some', Option.some.injEq] at h0'
    have hup : (s'.db.upsertAll tx' obs.Transactions)
        = (s.db.upsertAll tx obs.Transactions).setRequired id r := by
      rw [hdb, ← upsertAll_setRequired]
      apply upsertAll_congr <;> rw [← h0']
    rw [hup, load_setRequired, h2] at h2'
    simp only [Option.map_some', Option.some.injEq] at h2'
    refine ⟨withFlags tx2' obs, hl', ?_, ?_, ?_⟩
    · rw [← h2']; rfl
    · rw [← h2']; rfl
    · rw [← h2']; rfl

theorem resolvedTimestamp_eq_spec (now : Time) (payload : LwsHookRequest) :
    resolvedTimestamp now payload = specEventTimestamp now payload := by
  unfold resolvedTimestamp specEventTimestamp Time.IsZero
  rcases payload.Timestamp with _ | ts <;> rcases payload.TxInfo with _ | ti <;> simp

/-- The saturation of `Time.Sub` does not affect the comparison with one minute. -/
theorem since_gt_minute (now t : Time) :
    Time.Since now t > Minute ↔ now.nanos - t.nanos > Minute := by
  unfold Time.Since Time.Sub
  simp only [minDuration, maxDuration, Minute, Second]
  split_ifs <;> constructor <;> intro h <;> omega

/-- Every error returned by the create-or-update loop carries code 500. -/
theorem upsertSubTransactions_code {σ : Type} (repo : CallbackRepository σ)
    (tx : models.Transaction) (ts : List moneropay.Transaction) (s : σ) (e : models.HTTPError)
    (h : (upsertSubTransactions repo tx ts s).1 = some e) : e.Code = 500 := by
  induction ts generalizing s with
  | nil => simp [upsertSubTransactions] at h
  | cons t rest ih =>
    cases hfind : tx.SubTransactions.find? (fun subTx => subTx.TxHash == t.TxHash) with
    | none =>
      rw [upsertSubTransactions_cons_none _ _ _ _ _ hfind] at h
      rcases hc : repo.CreateSubTransaction (newSubTransaction tx t) s with ⟨_ | _, s1⟩
      · simp only [hc, Option.some.injEq] at h
        rw [← h]; rfl
      · simp only [hc] at h
        exact ih s1 h
    | some r =>
      rw [upsertSubTransactions_cons_some _ _ _ _ _ r hfind] at h
      rcases hc : repo.UpdateSubTransaction { newSubTransaction tx t with ID := r.ID } s with ⟨_ | _, s1⟩
      · simp only [hc, Option.some.injEq] at h
        rw [← h]; rfl
      · simp only [hc] at h
        exact ih s1 h

/-- Every error returned by the merger carries code 404 or 500. -/
theorem processTransaction_code {σ : Type} (repo : CallbackRepository σ) (id : Nat)
    (obs : moneropay.ReceiveAddressResponse) (s : σ) (e : models.HTTPError)
    (h : (processTransaction repo id obs s).1 = some e) : e.Code = 404 ∨ e.Code = 500 := by
  rw [processTransaction_eq] at h
  rcases h1 : repo.FindTransactionByID id s with ⟨_ | tx, s1⟩
  · simp only [h1, Option.some.injEq] at h
    left; rw [← h]; rfl
  · simp only [h1] at h
    rcases h2 : upsertSubTransactions repo tx obs.Transactions s1 with ⟨_ | e2, s2⟩
    · simp only [h2] at h
      rcases h3 : repo.FindTransactionByID tx.ID s2 with ⟨_ | tx2, s3⟩
      · simp only [h3, Option.some.injEq] at h
        left; rw [← h]; rfl
      · simp only [h3] at h
        rcases h4 : repo.UpdateTransaction (withFlags tx2 obs) s3 with ⟨_ | _, s4⟩
        · simp only [h4, Option.some.injEq] at h
          right; rw [← h]; rfl
        · simp [h4] at h
    · simp only [h2, Option.some.injEq] at h
      right
      have := upsertSubTransactions_code repo tx obs.Transactions s1 e2 (by rw [h2])
      rw [← h]; exact this

/-- C6 (as amended). When the presented token differs from the configured one,
`HandleLwsHook` fails without touching the repository, whatever repository it runs on: with
400 when the resolved amount is zero or the resolved hash is empty, since the payload check
comes first, and with 401 otherwise. -/
theorem lws_bad_token_rejected {σ : Type} (repo : CallbackRepository σ) (config : Config)
    (clock : Clock) (c : Context) (jwtToken : String) (payload : LwsHookRequest) (s : σ)
    (htoken : jwtToken ≠ config.JWTLwsToken) :
    (HandleLwsHook repo config clock (some c) jwtToken payload s).2 = s ∧
      ((resolvedAmount payload = 0 ∨ resolvedTxHash payload = "") →
        (HandleLwsHook repo config clock (some c) jwtToken payload s).1 =
          some ⟨400, "amount and tx_hash are required"⟩) ∧
      (resolvedAmount payload ≠ 0 → resolvedTxHash payload ≠ "" →
        ∃ msg, (HandleLwsHook repo config clock (some c) jwtToken payload s).1 = some ⟨401, msg⟩) := by
  by_cases hp : resolvedAmount payload = 0 ∨ resolvedTxHash payload = ""
  · have hb : (resolvedAmount payload == 0 || resolvedTxHash payload == "") = true := by
      simpa using hp
    have hval : HandleLwsHook repo config clock (some c) jwtToken payload s =
        (some ⟨400, "amount and tx_hash are required"⟩, s) := by
      unfold HandleLwsHook
      simp only [hb, if_true]
      rfl
    rw [hval]
    refine ⟨rfl, fun _ => rfl, ?_⟩
    intro ha hh
    rcases hp with hp | hp
    · exact absurd hp ha
    · exact absurd hp hh
  · have hb : (resolvedAmount payload == 0 || resolvedTxHash payload == "") = false := by
      simpa using hp
    by_cases hs : Time.Since clock.atStaleCheck (resolvedTimestamp clock.atEntry payload) > Minute
    · have hval : HandleLwsHook repo config clock (some c) jwtToken payload s =
          (some ⟨401, "Stale LWS payload"⟩, s) := by
        unfold HandleLwsHook
        simp only [hb, Bool.false_eq_true, if_false, hs, if_true]
        rfl
      rw [hval]
      exact ⟨rfl, fun h => absurd h hp, fun _ _ => ⟨_, rfl⟩⟩
    · have ht : (jwtToken != config.JWTLwsToken) = true := by simpa using htoken
      have hval : HandleLwsHook repo config clock (some c) jwtToken payload s =
          (some ⟨401, "Invalid token"⟩, s) := by
        unfold HandleLwsHook
        simp only [hb, Bool.false_eq_true, if_false, hs, ht, if_true]
        rfl
      rw [hval]
      exact ⟨rfl, fun h => absurd h hp, fun _ _ => ⟨_, rfl⟩⟩

/-- A lookup of recent pending transactions that succeeds on the in-memory repository leaves
the tables alone and is logged as one call. -/
theorem memRepo_lookup_ok (amount : Int) (since : Time) (s s1 : Store)
    (candidates : List models.Transaction)
    (h : memRepo.FindRecentPendingTransactionsByAmount amount since s = (.ok candidates, s1)) :
    s1.db = s.db ∧
      s1.log = s.log ++ [.findRecentPendingTransactionsByAmount amount since] := by
  have hdef : memRepo.FindRecentPendingTransactionsByAmount amount since s =
      s.exec (.findRecentPendingTransactionsByAmount amount since) (fun db =>
        (.ok (db.transactions.filter (fun t =>
          t.Amount == amount && !t.Accepted && !t.Confirmed &&
            decide (since.nanos ≤ t.CreatedAt.nanos))), db)) := rfl
  rw [hdef] at h
  rcases exec_cases s (.findRecentPendingTransactionsByAmount amount since) (fun db =>
      (.ok (db.transactions.filter (fun t =>
        t.Amount == amount && !t.Accepted && !t.Confirmed &&
          decide (since.nanos ≤ t.CreatedAt.nanos))), db)) with ⟨e, fs, _, hx⟩ | ⟨_, hx⟩
  · rw [hx] at h
    simp at h
  · rw [hx] at h
    simp only [Prod.mk.injEq] at h
    rw [← h.2]
    exact ⟨rfl, rfl⟩

/-- C7. A payload that passes the payload, staleness and token checks and for which the
lookup of recent pending transactions of the resolved amount, made with the cut-off one
minute before the clock reading, returns zero or several candidates is rejected with 401, on
every repository; the repository is left in the state in which that lookup left it, so the
merger has not run. On the in-memory repository the tables are unchanged and the lookup is
the only call the store has received. -/
theorem lws_ambiguous_rejected {σ : Type} (repo : CallbackRepository σ) (config : Config)
    (clock : Clock) (c : Context) (jwtToken : String) (payload : LwsHookRequest) (s s1 : σ)
    (candidates : List models.Transaction)
    (hamount : resolvedAmount payload ≠ 0) (hhash : resolvedTxHash payload ≠ "")
    (hfresh : ¬ Time.Since clock.atStaleCheck (resolvedTimestamp clock.atEntry payload) > Minute)
    (htoken : jwtToken = config.JWTLwsToken)
    (hlookup : repo.FindRecentPendingTransactionsByAmount (resolvedAmount payload)
      (clock.atLookup.Add (-1 * Minute)) s = (.ok candidates, s1))
    (hcount : candidates.length ≠ 1) :
    HandleLwsHook repo config clock (some c) jwtToken payload s =
        (some ⟨401, "Unable to uniquely resolve transaction for LWS hook"⟩, s1) ∧
      ∀ (st st1 : Store) (cands : List models.Transaction),
        memRepo.FindRecentPendingTransactionsByAmount (resolvedAmount payload)
          (clock.atLookup.Add (-1 * Minute)) st = (.ok cands, st1) →
        cands.length ≠ 1 →
        (HandleLwsHook memRepo config clock (some c) jwtToken payload st).1 =
            some ⟨401, "Unable to uniquely resolve transaction for LWS hook"⟩ ∧
          (HandleLwsHook memRepo config clock (some c) jwtToken payload st).2.db = st.db ∧
          (HandleLwsHook memRepo config clock (some c) jwtToken payload st).2.log =
            st.log ++ [.findRecentPendingTransactionsByAmount (resolvedAmount payload)
              (clock.atLookup.Add (-1 * Minute))] := by
  have hb : (resolvedAmount payload == 0 || resolvedTxHash payload == "") = false := by
    simp [hamount, hhash]
  have ht : (jwtToken != config.JWTLwsToken) = false := by simp [htoken]
  have hgen : ∀ {ρ : Type} (rp : CallbackRepository ρ) (a a1 : ρ) (cs : List models.Transaction),
      rp.FindRecentPendingTransactionsByAmount (resolvedAmount payload)
        (clock.atLookup.Add (-1 * Minute)) a = (.ok cs, a1) → cs.length ≠ 1 →
      HandleLwsHook rp config clock (some c) jwtToken payload a =
        (some ⟨401, "Unable to uniquely resolve transaction for LWS hook"⟩, a1) := by
    intro ρ rp a a1 cs hl hc
    unfold HandleLwsHook
    simp only [hb, Bool.false_eq_true, if_false, hfresh, ht, hl]
    rcases cs with _ | ⟨x, _ | ⟨y, l⟩⟩
    · rfl
    · simp at hc
    · rfl
  refine ⟨hgen repo s s1 candidates hlookup hcount, ?_⟩
  intro st st1 cands hl hc
  rw [hgen memRepo st st1 cands hl hc]
  obtain ⟨hdb, hlog⟩ := memRepo_lookup_ok _ _ st st1 cands hl
  exact ⟨rfl, hdb, hlog⟩

/-- C8. A payload with non-zero resolved amount and non-empty resolved hash whose resolved
event timestamp lies more than one minute before the clock reading of the staleness check is
rejected with 401 as stale, for every token and every repository, and the repository is not
touched; a timestamp at most one minute old is never rejected as stale. The resolved
timestamp is the flat one when present and non-zero, else the nested one when positive, else
the time of receipt. -/
theorem lws_stale_rejected {σ : Type} (repo : CallbackRepository σ) (config : Config)
    (clock : Clock) (c : Context) (jwtToken : String) (payload : LwsHookRequest) (s : σ)
    (hamount : resolvedAmount payload ≠ 0) (hhash : resolvedTxHash payload ≠ "") :
    resolvedTimestamp clock.atEntry payload = specEventTimestamp clock.atEntry payload ∧
      (clock.atStaleCheck.nanos - (specEventTimestamp clock.atEntry payload).nanos > Minute →
        HandleLwsHook repo config clock (some c) jwtToken payload s =
          (some ⟨401, "Stale LWS payload"⟩, s)) ∧
      (clock.atStaleCheck.nanos - (specEventTimestamp clock.atEntry payload).nanos ≤ Minute →
        (HandleLwsHook repo config clock (some c) jwtToken payload s).1 ≠
          some ⟨401, "Stale LWS payload"⟩) := by
  have hb : (resolvedAmount payload == 0 || resolvedTxHash payload == "") = false := by
    simp [hamount, hhash]
  refine ⟨resolvedTimestamp_eq_spec _ _, ?_, ?_⟩
  · intro hold
    rw [← resolvedTimestamp_eq_spec, ← since_gt_minute] at hold
    unfold HandleLwsHook
    simp only [hb, Bool.false_eq_true, if_false, hold, if_true]
    rfl
  · intro hnew
    rw [← resolvedTimestamp_eq_spec] at hnew
    have hfresh : ¬ Time.Since clock.atStaleCheck (resolvedTimestamp clock.atEntry payload) > Minute := by
      rw [since_gt_minute]; omega
    unfold HandleLwsHook
    simp only [hb, Bool.false_eq_true, if_false, hfresh]
    by_cases ht : (jwtToken != config.JWTLwsToken) = true
    · simp only [ht, if_true]
      intro h
      simp [models.NewHTTPError] at h
    · simp only [ht, if_false]
      rcases hl : repo.FindRecentPendingTransactionsByAmount (resolvedAmount payload)
          (clock.atLookup.Add (-1 * Minute)) s with ⟨_ | candidates, s1⟩
      · intro h
        simp [models.NewHTTPError] at h
      · rcases candidates with _ | ⟨a, _ | ⟨b, l⟩⟩
        · intro h
          simp [models.NewHTTPError] at h
        · simp only
          intro h
          have := processTransaction_code repo a.ID _ s1 _ h
          simp at this
        · intro h
          simp [models.NewHTTPError] at h

theorem load_upsertAll_some (tx tx0 : models.Transaction) (ts : List moneropay.Transaction) (db : DB)
    (id : Nat) (h0 : db.load id = some tx0) :
    ∃ tx2, (db.upsertAll tx ts).load id = some tx2 := by
  unfold DB.load at h0 ⊢
  rw [upsertAll_transactions]
  cases hf : db.transactions.find? (fun t => t.ID == id) with
  | none => simp [hf] at h0
  | some t => exact ⟨_, rfl⟩

theorem exec_find_some (s : Store) (id : Nat) (tx : models.Transaction)
    (hload : s.db.load id = some tx) (hf : ∀ e rest, s.faults ≠ some e :: rest) :
    memRepo.FindTransactionByID id s =
      (.ok tx, { db := s.db, faults := s.faults.tail, log := s.log ++ [.findTransactionByID id] }) := by
  rw [memRepo_find, exec_run _ _ _ hf]
  simp only [hload]

theorem replicate_head_ne (k : Nat) (e : String) (rest : List (Option String)) (e' : String)
    (fs : List (Option String)) :
    List.replicate (k + 1) (none : Option String) ++ some e :: rest ≠ some e' :: fs := by
  simp [List.replicate_succ]

/-- The merge on the in-memory repository when the write for the transfer at index `k` is the
first store operation to fail. -/
theorem processTransaction_upsert_fault (id : Nat) (obs : moneropay.ReceiveAddressResponse)
    (s : Store) (tx : models.Transaction) (k : Nat) (e : String) (rest : List (Option String))
    (hload : s.db.load id = some tx) (hk : k < obs.Transactions.length)
    (hf : s.faults = List.replicate (k + 1) none ++ some e :: rest) :
    ∃ msg, processTransaction memRepo id obs s =
      (some ⟨500, msg⟩,
        { db := s.db.upsertAll tx (obs.Transactions.take k), faults := rest,
          log := s.log ++ .findTransactionByID id ::
            (obs.Transactions.take (k + 1)).map (upsertCall tx) }) := by
  have hhead : ∀ e' fs, s.faults ≠ some e' :: fs := by
    intro e' fs; rw [hf]; exact replicate_head_ne k e rest e' fs
  obtain ⟨msg, hloop⟩ := upsert_loop_fault tx obs.Transactions
    { db := s.db, faults := s.faults.tail, log := s.log ++ [.findTransactionByID id] } k e rest hk
    (by simp [hf, List.replicate_succ])
  refine ⟨msg, ?_⟩
  rw [processTransaction_eq, exec_find_some s id tx hload hhead]
  simp only [hloop]
  simp

theorem drop_ne_of_take_none (fs : List (Option String)) (n i : Nat) (hi : i < n)
    (hf : ∀ f ∈ fs.take n, f = none) (e : String) (rest : List (Option String)) :
    fs.drop i ≠ some e :: rest := by
  induction fs generalizing n i with
  | nil => simp
  | cons g fs ih =>
    cases n with
    | zero => omega
    | succ n =>
      cases i with
      | zero =>
        intro h
        have hg : g = some e := by simpa using congrArg List.head? h
        have := hf g (by simp)
        rw [hg] at this
        simp at this
      | succ i =>
        simp only [List.drop_succ_cons]
        apply ih n i (by omega)
        intro f hmem
        exact hf f (by simp [hmem])

theorem take_drop_none (fs : List (Option String)) (i m : Nat)
    (hf : ∀ f ∈ fs.take (i + m), f = none) : ∀ f ∈ (fs.drop i).take m, f = none := by
  intro f hmem
  rw [List.take_drop] at hmem
  exact hf f (List.mem_of_mem_drop hmem)

/-- The merge on the in-memory repository when none of its store operations fails. -/
theorem processTransaction_run (id : Nat) (obs : moneropay.ReceiveAddressResponse)
    (s : Store) (tx : models.Transaction) (hload : s.db.load id = some tx)
    (hf : ∀ f ∈ s.faults.take (obs.Transactions.length + 3), f = none) :
    ∃ tx2, (s.db.upsertAll tx obs.Transactions).load id = some tx2 ∧
      processTransaction memRepo id obs s =
        (none,
          { db := (s.db.upsertAll tx obs.Transactions).saveTransaction (withFlags tx2 obs)
            faults := s.faults.drop (obs.Transactions.length + 3)
            log := s.log ++ .findTransactionByID id ::
              (obs.Transactions.map (upsertCall tx) ++
                [.findTransactionByID id, .updateTransaction (withFlags tx2 obs)]) }) := by
  obtain ⟨tx2, h2⟩ := load_upsertAll_some tx tx obs.Transactions s.db id hload
  have hid := load_id hload
  have hnone : ∀ i, i < obs.Transactions.length + 3 → ∀ e fs, s.faults.drop i ≠ some e :: fs :=
    fun i hi e fs => drop_ne_of_take_none s.faults _ i hi hf e fs
  have hhead : ∀ e' fs, s.faults ≠ some e' :: fs := by
    intro e' fs h
    exact hnone 0 (by omega) e' fs (by simpa using h)
  have hloop := upsert_loop_run tx obs.Transactions
    { db := s.db, faults := s.faults.drop 1, log := s.log ++ [.findTransactionByID id] }
    (take_drop_none s.faults 1 _ (fun f hmem =>
      hf f (List.take_subset_take_left s.faults (by omega) hmem)))
  refine ⟨tx2, h2, ?_⟩
  rw [processTransaction_eq, exec_find_some s id tx hload hhead, ← List.drop_one]
  simp only [hloop]
  rw [hid, exec_find_some _ id tx2 h2
    (by
      intro e' fs h
      apply hnone (obs.Transactions.length + 1) (by omega) e' fs
      simpa [Nat.add_comm] using h)]
  simp only
  rw [memRepo_update, exec_run _ _ _
    (by
      intro e' fs h
      apply hnone (obs.Transactions.length + 2) (by omega) e' fs
      have he : 1 + (obs.Transactions.length + 1) = obs.Transactions.length + 2 := by omega
      simpa [Nat.add_comm, Nat.add_assoc, he] using h)]
  have he : 1 + (1 + (obs.Transactions.length + 1)) = obs.Transactions.length + 3 := by omega
  simp [Nat.add_comm, Nat.add_assoc, he]

/-- The merge on the in-memory repository when the final transaction update is the first
store operation to fail. -/
theorem processTransaction_update_fault (id : Nat) (obs : moneropay.ReceiveAddressResponse)
    (s : Store) (tx : models.Transaction) (e : String) (rest : List (Option String))
    (hload : s.db.load id = some tx)
    (hf : s.faults = List.replicate (obs.Transactions.length + 2) none ++ some e :: rest) :
    ∃ msg tx2, (s.db.upsertAll tx obs.Transactions).load id = some tx2 ∧
      processTransaction memRepo id obs s =
        (some ⟨500, msg⟩,
          { db := s.db.upsertAll tx obs.Transactions, faults := rest,
            log := s.log ++ .findTransactionByID id ::
              (obs.Transactions.map (upsertCall tx) ++
                [.findTransactionByID id, .updateTransaction (withFlags tx2 obs)]) }) := by
  obtain ⟨tx2, h2⟩ := load_upsertAll_some tx tx obs.Transactions s.db id hload
  have hid := load_id hload
  have hpre : ∀ f ∈ s.faults.take (obs.Transactions.length + 2), f = none := by
    intro f hmem
    rw [hf, List.take_left' (by simp)] at hmem
    exact List.eq_of_mem_replicate hmem
  have hnone : ∀ i, i < obs.Transactions.length + 2 → ∀ e fs, s.faults.drop i ≠ some e :: fs :=
    fun i hi e fs => drop_ne_of_take_none s.faults _ i hi hpre e fs
  have hhead : ∀ e' fs, s.faults ≠ some e' :: fs := by
    intro e' fs h
    exact hnone 0 (by omega) e' fs (by simpa using h)
  have hloop := upsert_loop_run tx obs.Transactions
    { db := s.db, faults := s.faults.drop 1, log := s.log ++ [.findTransactionByID id] }
    (take_drop_none s.faults 1 _ (fun f hmem =>
      hpre f (List.take_subset_take_left s.faults (by omega) hmem)))
  have hlast : s.faults.drop (obs.Transactions.length + 2) = some e :: rest := by
    rw [hf, List.drop_left' (by simp)]
  refine ⟨"Failed to update transaction: " ++ e, tx2, h2, ?_⟩
  rw [processTransaction_eq, exec_find_some s id tx hload hhead, ← List.drop_one]
  simp only [hloop]
  rw [hid, exec_find_some _ id tx2 h2
    (by
      intro e' fs h
      apply hnone (obs.Transactions.length + 1) (by omega) e' fs
      simpa [Nat.add_comm] using h)]
  simp only
  rw [memRepo_update, exec_fault _ _ _ e rest
    (by
      have he : 1 + (obs.Transactions.length + 1) = obs.Transactions.length + 2 := by omega
      simpa [Nat.add_comm, Nat.add_assoc, he] using hlast)]
  simp [models.NewHTTPError, StatusInternalServerError]

/-- C9. A failed write aborts the merge and keeps what was already applied. Let the
transaction be stored and the first failing store operation be the write for the transfer at
index `k` (counting from 0): the merge returns code 500; the sub-payment table is the one
that a merge of only the first `k` transfers leaves; the transaction row is not rewritten;
and the store received exactly the load and the writes for the transfers up to index `k`,
nothing after the failed one. If the first failing operation is the final transaction
update, the merge returns code 500, the sub-payment table is the one a complete merge
leaves and the transaction row is unchanged. -/
theorem write_failure_keeps_applied_upserts (s : Store) (id : Nat)
    (obs : moneropay.ReceiveAddressResponse) (tx : models.Transaction) (e : String)
    (rest : List (Option String)) (hload : s.db.load id = some tx) :
    (∀ k, k < obs.Transactions.length →
      s.faults = List.replicate (k + 1) none ++ some e :: rest →
      ∃ msg, (processTransaction memRepo id obs s).1 = some ⟨500, msg⟩ ∧
        (processTransaction memRepo id { obs with Transactions := obs.Transactions.take k }
          { s with faults := [] }).1 = none ∧
        (processTransaction memRepo id obs s).2.db.subTransactions =
          (processTransaction memRepo id { obs with Transactions := obs.Transactions.take k }
            { s with faults := [] }).2.db.subTransactions ∧
        (processTransaction memRepo id obs s).2.db.transactions = s.db.transactions ∧
        (processTransaction memRepo id obs s).2.faults = rest ∧
        (processTransaction memRepo id obs s).2.log =
          s.log ++ .findTransactionByID id ::
            (obs.Transactions.take (k + 1)).map (upsertCall tx)) ∧
    (s.faults = List.replicate (obs.Transactions.length + 2) none ++ some e :: rest →
      ∃ msg, (processTransaction memRepo id obs s).1 = some ⟨500, msg⟩ ∧
        (processTransaction memRepo id obs { s with faults := [] }).1 = none ∧
        (processTransaction memRepo id obs s).2.db.subTransactions =
          (processTransaction memRepo id obs { s with faults := [] }).2.db.subTransactions ∧
        (processTransaction memRepo id obs s).2.db.transactions = s.db.transactions ∧
        (processTransaction memRepo id obs s).2.faults = rest) := by
  constructor
  · intro k hk hf
    obtain ⟨msg, hrun⟩ := processTransaction_upsert_fault id obs s tx k e rest hload hk hf
    obtain ⟨tx2, _, hrun0⟩ := processTransaction_run id
      { obs with Transactions := obs.Transactions.take k } { s with faults := [] } tx hload
      (by simp)
    refine ⟨msg, ?_, ?_, ?_, ?_, ?_, ?_⟩
    · rw [hrun]
    · rw [hrun0]
    · rw [hrun, hrun0]; rfl
    · rw [hrun]; exact upsertAll_transactions _ _ _
    · rw [hrun]
    · rw [hrun]
  · intro hf
    obtain ⟨msg, tx2, _, hrun⟩ := processTransaction_update_fault id obs s tx e rest hload hf
    obtain ⟨tx2', _, hrun0⟩ := processTransaction_run id obs { s with faults := [] } tx hload
      (by simp)
    refine ⟨msg, ?_, ?_, ?_, ?_, ?_⟩
    · rw [hrun]
    · rw [hrun0]
    · rw [hrun, hrun0]; rfl
    · rw [hrun]; exact upsertAll_transactions _ _ _
    · rw [hrun]

theorem responded_cons_none (tx : models.Transaction) (rest : List models.Transaction)
    (answers : List (Except String (Option moneropay.ReceiveAddressResponse)))
    (h : tx.SubAddress = none) : responded (tx :: rest) answers = responded rest answers := by
  simp [responded, h]

theorem responded_nil_answers (txs : List models.Transaction) : responded txs [] = [] := by
  simp [responded]

theorem responded_cons_some (tx : models.Transaction) (rest : List models.Transaction)
    (a : String) (ans : Except String (Option moneropay.ReceiveAddressResponse))
    (answers : List (Except String (Option moneropay.ReceiveAddressResponse)))
    (h : tx.SubAddress = some a) :
    responded (tx :: rest) (ans :: answers) =
      match ans with
      | .ok (some moneroStatus) => (tx.ID, moneroStatus) :: responded rest answers
      | _ => responded rest answers := by
  rcases ans with _ | _ | r <;> simp [responded, h]

/-- The loop of a sweep against the scripted source: every transaction with a receive address
is queried, in order, and the answered ones are merged, in order. -/
theorem sweepTransactions_spec {σ : Type} (repo : CallbackRepository σ)
    (txs : List models.Transaction) (s : σ) (m : Source) :
    (sweepTransactions repo scriptedSource txs (s, m)).2.queried =
        m.queried ++ txs.filterMap (fun tx => tx.SubAddress) ∧
      (sweepTransactions repo scriptedSource txs (s, m)).1 =
        (responded txs m.answers).foldl (fun st p => (processTransaction repo p.1 p.2 st).2) s := by
  induction txs generalizing s m with
  | nil => simp [sweepTransactions, responded]
  | cons tx rest ih =>
    cases haddr : tx.SubAddress with
    | none =>
      have hstep : sweepTransactions repo scriptedSource (tx :: rest) (s, m) =
          sweepTransactions repo scriptedSource rest (s, m) := by
        rw [sweepTransactions]; simp only [haddr]
      rw [hstep, responded_cons_none tx rest _ haddr]
      simpa [haddr] using ih s m
    | some a =>
      rcases hans : m.answers with _ | ⟨ans, answers⟩
      · have hstep : sweepTransactions repo scriptedSource (tx :: rest) (s, m) =
            sweepTransactions repo scriptedSource rest
              (s, { answers := [], queried := m.queried ++ [a] }) := by
          rw [sweepTransactions]; simp only [haddr, scriptedSource, hans]
        have := ih s { answers := [], queried := m.queried ++ [a] }
        rw [hstep, responded_nil_answers]
        simp only [responded_nil_answers] at this
        simpa [haddr] using this
      · have hq : scriptedSource.GetReceiveAddress a m =
            (ans, { answers := answers, queried := m.queried ++ [a] }) := by
          simp only [scriptedSource, hans]
        have := ih s { answers := answers, queried := m.queried ++ [a] }
        rw [responded_cons_some tx rest a ans answers haddr]
        rcases ans with e | _ | r
        · have hstep : sweepTransactions repo scriptedSource (tx :: rest) (s, m) =
              sweepTransactions repo scriptedSource rest
                (s, { answers := answers, queried := m.queried ++ [a] }) := by
            rw [sweepTransactions]; simp only [haddr, hq]
          rw [hstep]
          simpa [haddr] using this
        · have hstep : sweepTransactions repo scriptedSource (tx :: rest) (s, m) =
              sweepTransactions repo scriptedSource rest
                (s, { answers := answers, queried := m.queried ++ [a] }) := by
            rw [sweepTransactions]; simp only [haddr, hq]
          rw [hstep]
          simpa [haddr] using this
        · have hstep : sweepTransactions repo scriptedSource (tx :: rest) (s, m) =
              sweepTransactions repo scriptedSource rest
                ((processTransaction repo tx.ID r s).2,
                  { answers := answers, queried := m.queried ++ [a] }) := by
            rw [sweepTransactions]; simp only [haddr, hq]
          have := ih (processTransaction repo tx.ID r s).2
            { answers := answers, queried := m.queried ++ [a] }
          rw [hstep]
          simpa [haddr] using this

theorem sweepTransactions_no_address {σ τ : Type} (repo : CallbackRepository σ)
    (moneroPay : MoneroPayAPIClient τ) (txs : List models.Transaction) (st : σ × τ)
    (h : ∀ tx ∈ txs, tx.SubAddress = none) :
    sweepTransactions repo moneroPay txs st = st := by
  induction txs with
  | nil => cases st; simp [sweepTransactions]
  | cons tx rest ih =>
    have haddr := h tx (by simp)
    cases st with
    | mk s m =>
      rw [sweepTransactions]
      simp only [haddr]
      exact ih (fun t ht => h t (by simp [ht]))

/-- C10. One sweep pass is best-effort per transaction. For the list of unconfirmed
transactions returned by the store, the status source is queried for exactly the
transactions that have a receive address, in list order, and the repository ends in the
state reached by running the merger, in list order, on exactly the transactions whose query
was answered with an observation; the outcome of one query or one merge does not stop the
pass. With no unconfirmed transaction, or none that has a receive address, neither the source
nor the repository is touched after the initial lookup, whatever the status client. -/
theorem sweep_best_effort {σ : Type} (repo : CallbackRepository σ) (s s1 : σ) (m : Source)
    (unconfirmed : List models.Transaction)
    (hfind : repo.FindUnconfirmedTransactions s = (.ok unconfirmed, s1)) :
    (checkUnconfirmedTransactions repo scriptedSource (s, m)).2.queried =
        m.queried ++ unconfirmed.filterMap (fun tx => tx.SubAddress) ∧
      (checkUnconfirmedTransactions repo scriptedSource (s, m)).1 =
        (responded unconfirmed m.answers).foldl
          (fun st p => (processTransaction repo p.1 p.2 st).2) s1 ∧
      ((∀ tx ∈ unconfirmed, tx.SubAddress = none) →
        ∀ (τ : Type) (moneroPay : MoneroPayAPIClient τ) (m' : τ),
          checkUnconfirmedTransactions repo moneroPay (s, m') = (s1, m')) := by
  have hsweep : checkUnconfirmedTransactions repo scriptedSource (s, m) =
      sweepTransactions repo scriptedSource unconfirmed (s1, m) := by
    simp only [checkUnconfirmedTransactions, hfind]
  rw [hsweep]
  refine ⟨(sweepTransactions_spec repo unconfirmed s1 m).1,
    (sweepTransactions_spec repo unconfirmed s1 m).2, ?_⟩
  intro hnone τ moneroPay m'
  simp only [checkUnconfirmedTransactions, hfind]
  exact sweepTransactions_no_address repo moneroPay unconfirmed (s1, m') hnone

/-! ### Shape of the sub-payment table after the loop -/

theorem rewriteRow_id (tx : models.Transaction) (ts : List moneropay.Transaction)
    (x : models.SubTransaction) : (rewriteRow tx ts x).ID = x.ID := by
  induction ts generalizing x with
  | nil => rfl
  | cons t ts ih =>
    rw [rewriteRow]
    split
    · next r _ =>
      rw [ih]
      by_cases h : x.ID = r.ID
      · simp [h, subFor]
      · simp [h]
    · exact ih x

/-- A row whose key is not the key of any snapshot row is not rewritten. -/
theorem rewriteRow_skip (tx : models.Transaction) (ts : List moneropay.Transaction)
    (x : models.SubTransaction)
    (h : ∀ t ∈ ts, ∀ r, tx.SubTransactions.find? (fun subTx => subTx.TxHash == t.TxHash) = some r →
      r.ID ≠ x.ID) :
    rewriteRow tx ts x = x := by
  induction ts with
  | nil => rfl
  | cons t ts ih =>
    rw [rewriteRow]
    have ih' := ih (fun t' ht' => h t' (by simp [ht']))
    split
    · next r hr =>
      have hne : ¬ x.ID = r.ID := fun e => h t (by simp) r hr e.symm
      simp only [beq_iff_eq, hne, if_false]
      exact ih'
    · exact ih'

theorem created_length_id (tx : models.Transaction) (ts : List moneropay.Transaction) (n : Nat) :
    ∀ c ∈ createdRows tx ts n, n ≤ c.ID ∧ c.ID < n + (createdRows tx ts n).length := by
  induction ts generalizing n with
  | nil => simp [createdRows]
  | cons t ts ih =>
    rw [createdRows]
    split
    · exact ih n
    · intro c hc
      simp only [List.mem_cons] at hc
      rcases hc with hc | hc
      · subst hc
        simp [subFor]
      · have := ih (n + 1) c hc
        simp only [List.length_cons]
        omega

/-- The table after the loop: the old rows, rewritten in place, followed by the inserted rows. -/
theorem upsertAll_shape (tx : models.Transaction) (ts : List moneropay.Transaction) (db : DB)
    (hfresh : ∀ r ∈ tx.SubTransactions, r.ID < db.nextSubID) :
    db.upsertAll tx ts =
      { transactions := db.transactions
        subTransactions := db.subTransactions.map (rewriteRow tx ts) ++ createdRows tx ts db.nextSubID
        nextSubID := db.nextSubID + (createdRows tx ts db.nextSubID).length } := by
  induction ts generalizing db with
  | nil => simp [DB.upsertAll, rewriteRow, createdRows]
  | cons t ts ih =>
    have hstep : db.upsertAll tx (t :: ts) = (db.upsert tx t).upsertAll tx ts := rfl
    rw [hstep]
    cases hfind : tx.SubTransactions.find? (fun subTx => subTx.TxHash == t.TxHash) with
    | none =>
      have hu : db.upsert tx t = db.insertSub (newSubTransaction tx t) := by
        simp [DB.upsert, hfind]
      rw [hu, ih _ (fun r hr => by simp only [DB.insertSub]; have := hfresh r hr; omega)]
      have hskip : rewriteRow tx ts (subFor tx t db.nextSubID) = subFor tx t db.nextSubID := by
        apply rewriteRow_skip
        intro t' _ r hr
        have hmem := List.mem_of_find?_eq_some hr
        have := hfresh r hmem
        simp only [subFor]
        omega
      have hrw : ∀ x, rewriteRow tx (t :: ts) x = rewriteRow tx ts x := by
        intro x; rw [rewriteRow]; simp only [hfind]
      have hcr : createdRows tx (t :: ts) db.nextSubID =
          subFor tx t db.nextSubID :: createdRows tx ts (db.nextSubID + 1) := by
        rw [createdRows]; simp only [hfind]
      simp only [DB.insertSub, List.map_append, List.map_cons, List.map_nil, hcr,
        List.length_cons, DB.mk.injEq, true_and]
      constructor
      · have : (fun x => rewriteRow tx (t :: ts) x) = rewriteRow tx ts := funext hrw
        have hsub : ({ newSubTransaction tx t with ID := db.nextSubID } : models.SubTransaction)
            = subFor tx t db.nextSubID := rfl
        rw [hsub, hskip]
        simp [List.append_assoc, ← this]
      · omega
    | some r =>
      have hu : db.upsert tx t = db.updateSub (subFor tx t r.ID) := by
        simp [DB.upsert, hfind, subFor]
      rw [hu, ih _ (fun r hr => by simp only [DB.updateSub]; exact hfresh r hr)]
      have hrw : ∀ x, rewriteRow tx (t :: ts) x =
          rewriteRow tx ts (if x.ID == r.ID then subFor tx t r.ID else x) := by
        intro x; rw [rewriteRow]; simp only [hfind]
      have hcr : createdRows tx (t :: ts) db.nextSubID = createdRows tx ts db.nextSubID := by
        rw [createdRows]; simp only [hfind]
      simp only [DB.updateSub, List.map_map, hcr, DB.mk.injEq, true_and, and_true]
      congr 1
      apply List.map_congr_left
      intro x _
      simp only [Function.comp, hrw]
      rfl

theorem rewriteRow_like (tx : models.Transaction) (ts : List moneropay.Transaction)
    (hinj : ∀ a ∈ tx.SubTransactions, ∀ b ∈ tx.SubTransactions, a.ID = b.ID → a = b)
    (x a : models.SubTransaction) (ha : a ∈ tx.SubTransactions) (hid : a.ID = x.ID)
    (hh : a.TxHash = x.TxHash) (ht : x.TransactionID = tx.ID) :
    (rewriteRow tx ts x).TxHash = x.TxHash ∧ (rewriteRow tx ts x).TransactionID = tx.ID := by
  induction ts generalizing x with
  | nil => exact ⟨rfl, ht⟩
  | cons t ts ih =>
    rw [rewriteRow]
    split
    · next r hr =>
      by_cases hx : x.ID = r.ID
      · have hrmem := List.mem_of_find?_eq_some hr
        have har : a = r := hinj a ha r hrmem (hid.trans hx)
        have hrh : r.TxHash = t.TxHash := by simpa using List.find?_some hr
        have hxh : x.TxHash = t.TxHash := by rw [← hh, har, hrh]
        have hb : (x.ID == r.ID) = true := by simpa using hx
        simp only [hb, if_true]
        have := ih (subFor tx t r.ID) (by rw [hid, hx]; rfl) (by rw [hh, hxh]; rfl) rfl
        rw [this.1, this.2]
        exact ⟨hxh.symm, rfl⟩
      · have hb : (x.ID == r.ID) = false := by simpa using hx
        simp only [hb, Bool.false_eq_true, if_false]
        exact ih x hid hh ht
    · exact ih x hid hh ht

theorem rewriteRow_hit (tx : models.Transaction) (ts : List moneropay.Transaction)
    (hinj : ∀ a ∈ tx.SubTransactions, ∀ b ∈ tx.SubTransactions, a.ID = b.ID → a = b)
    (hnd : (ts.map (fun t => t.TxHash)).Nodup) (t : moneropay.Transaction) (ht : t ∈ ts)
    (r : models.SubTransaction)
    (hr : tx.SubTransactions.find? (fun subTx => subTx.TxHash == t.TxHash) = some r) :
    rewriteRow tx ts r = subFor tx t r.ID := by
  have hrmem := List.mem_of_find?_eq_some hr
  have hrh : r.TxHash = t.TxHash := by simpa using List.find?_some hr
  -- a transfer with another hash never targets the key of `r`
  have hother : ∀ t' : moneropay.Transaction, t'.TxHash ≠ t.TxHash → ∀ r',
      tx.SubTransactions.find? (fun subTx => subTx.TxHash == t'.TxHash) = some r' → r'.ID ≠ r.ID := by
    intro t' hne r' hr' hid
    have hr'mem := List.mem_of_find?_eq_some hr'
    have hr'h : r'.TxHash = t'.TxHash := by simpa using List.find?_some hr'
    have := hinj r' hr'mem r hrmem hid
    apply hne
    rw [← hr'h, this, hrh]
  induction ts with
  | nil => simp at ht
  | cons t1 ts ih =>
    simp only [List.map_cons, List.nodup_cons, List.mem_map, not_exists, not_and] at hnd
    rw [rewriteRow]
    simp only [List.mem_cons] at ht
    rcases ht with ht | ht
    · subst ht
      simp only [hr, beq_self_eq_true, if_true]
      apply rewriteRow_skip
      intro t' ht' r' hr'
      apply hother t' _ r' hr'
      intro he
      exact hnd.1 t' ht' he
    · have hne : t1.TxHash ≠ t.TxHash := fun he => hnd.1 t ht he.symm
      split
      · next r1 hr1 =>
        have := hother t1 hne r1 hr1
        have hb : (r.ID == r1.ID) = false := by simpa using fun e => this e.symm
        simp only [hb, Bool.false_eq_true, if_false]
        exact ih hnd.2 ht
      · exact ih hnd.2 ht

theorem created_txid (tx : models.Transaction) (ts : List moneropay.Transaction) (n : Nat) :
    ∀ c ∈ createdRows tx ts n, c.TransactionID = tx.ID := by
  induction ts generalizing n with
  | nil => simp [createdRows]
  | cons t ts ih =>
    rw [createdRows]
    split
    · exact ih n
    · intro c hc
      simp only [List.mem_cons] at hc
      rcases hc with hc | hc
      · subst hc; rfl
      · exact ih (n + 1) c hc

theorem created_find (tx : models.Transaction) (ts : List moneropay.Transaction) (n : Nat)
    (hnd : (ts.map (fun t => t.TxHash)).Nodup) (t : moneropay.Transaction) (ht : t ∈ ts)
    (hfind : tx.SubTransactions.find? (fun subTx => subTx.TxHash == t.TxHash) = none) :
    ∃ i, (createdRows tx ts n).find? (fun subTx => subTx.TxHash == t.TxHash) =
      some (subFor tx t i) := by
  induction ts generalizing n with
  | nil => simp at ht
  | cons t1 ts ih =>
    simp only [List.map_cons, List.nodup_cons, List.mem_map, not_exists, not_and] at hnd
    simp only [List.mem_cons] at ht
    rw [createdRows]
    split
    · next r1 hr1 =>
      rcases ht with ht | ht
      · subst ht
        rw [hfind] at hr1
        simp at hr1
      · exact ih n hnd.2 ht
    · rcases ht with ht | ht
      · subst ht
        exact ⟨n, by simp [subFor, newSubTransaction]⟩
      · have hne : t1.TxHash ≠ t.TxHash := fun he => hnd.1 t ht he.symm
        obtain ⟨i, hi⟩ := ih (n + 1) hnd.2 ht
        refine ⟨i, ?_⟩
        rw [List.find?_cons_of_neg _ (by simpa [subFor, newSubTransaction] using hne)]
        exact hi

theorem find_congr_mem {α : Type} (l : List α) (p q : α → Bool) (h : ∀ x ∈ l, p x = q x) :
    l.find? p = l.find? q := by
  induction l with
  | nil => rfl
  | cons a l ih =>
    have ha := h a (by simp)
    have ih' := ih (fun x hx => h x (by simp [hx]))
    simp only [List.find?_cons, ha, ih']

theorem wf_inj (db : DB) (h : db.WF) :
    ∀ a ∈ db.subTransactions, ∀ b ∈ db.subTransactions, a.ID = b.ID → a = b :=
  fun _ ha _ hb e => List.inj_on_of_nodup_map h.1 ha hb e

/-- The snapshot of a transaction after the loop: its old rows, rewritten in place, followed
by the inserted rows. -/
theorem upsertAll_snapshot (tx : models.Transaction) (ts : List moneropay.Transaction) (db : DB)
    (hwf : db.WF)
    (hS : tx.SubTransactions = db.subTransactions.filter (fun r => r.TransactionID == tx.ID)) :
    (db.upsertAll tx ts).subTransactions.filter (fun r => r.TransactionID == tx.ID) =
      tx.SubTransactions.map (rewriteRow tx ts) ++ createdRows tx ts db.nextSubID := by
  have hsub : ∀ r ∈ tx.SubTransactions, r ∈ db.subTransactions ∧ r.TransactionID = tx.ID := by
    intro r hr
    rw [hS, List.mem_filter] at hr
    exact ⟨hr.1, by simpa using hr.2⟩
  have hinjS : ∀ a ∈ tx.SubTransactions, ∀ b ∈ tx.SubTransactions, a.ID = b.ID → a = b :=
    fun a ha b hb e => wf_inj db hwf a (hsub a ha).1 b (hsub b hb).1 e
  rw [upsertAll_shape tx ts db (fun r hr => hwf.2 r (hsub r hr).1)]
  simp only [List.filter_append]
  congr 1
  · rw [List.filter_map, hS]
    congr 1
    apply List.filter_congr
    intro x hx
    simp only [Function.comp]
    by_cases hp : x.TransactionID = tx.ID
    · have hxS : x ∈ tx.SubTransactions := by
        rw [hS, List.mem_filter]; exact ⟨hx, by simpa using hp⟩
      rw [(rewriteRow_like tx ts hinjS x x hxS rfl rfl hp).2, hp]
    · have hskip : rewriteRow tx ts x = x := by
        apply rewriteRow_skip
        intro t _ r hr hid
        have hrS := List.mem_of_find?_eq_some hr
        have := wf_inj db hwf r (hsub r hrS).1 x hx hid
        exact hp (this ▸ (hsub r hrS).2)
      rw [hskip]
  · rw [List.filter_eq_self]
    intro c hc
    simpa using created_txid tx ts db.nextSubID c hc

/-- After the loop, looking a transfer of the observation up by its hash finds a row that
carries exactly what was observed, provided the observation does not repeat a hash. -/
theorem upsertAll_lookup (tx : models.Transaction) (ts : List moneropay.Transaction) (db : DB)
    (hwf : db.WF)
    (hS : tx.SubTransactions = db.subTransactions.filter (fun r => r.TransactionID == tx.ID))
    (hnd : (ts.map (fun t => t.TxHash)).Nodup) (t : moneropay.Transaction) (ht : t ∈ ts) :
    ∃ i, ((db.upsertAll tx ts).subTransactions.filter (fun r => r.TransactionID == tx.ID)).find?
      (fun subTx => subTx.TxHash == t.TxHash) = some (subFor tx t i) := by
  have hsub : ∀ r ∈ tx.SubTransactions, r ∈ db.subTransactions ∧ r.TransactionID = tx.ID := by
    intro r hr
    rw [hS, List.mem_filter] at hr
    exact ⟨hr.1, by simpa using hr.2⟩
  have hinjS : ∀ a ∈ tx.SubTransactions, ∀ b ∈ tx.SubTransactions, a.ID = b.ID → a = b :=
    fun a ha b hb e => wf_inj db hwf a (hsub a ha).1 b (hsub b hb).1 e
  rw [upsertAll_snapshot tx ts db hwf hS, List.find?_append, List.find?_map]
  have hcongr : tx.SubTransactions.find?
      ((fun subTx : models.SubTransaction => subTx.TxHash == t.TxHash) ∘ rewriteRow tx ts) =
      tx.SubTransactions.find? (fun subTx => subTx.TxHash == t.TxHash) := by
    apply find_congr_mem
    intro x hx
    simp only [Function.comp]
    rw [(rewriteRow_like tx ts hinjS x x hx rfl rfl (hsub x hx).2).1]
  rw [hcongr]
  cases hfind : tx.SubTransactions.find? (fun subTx => subTx.TxHash == t.TxHash) with
  | some r =>
    refine ⟨r.ID, ?_⟩
    simp only [Option.map_some', Option.or_some]
    rw [rewriteRow_hit tx ts hinjS hnd t ht r hfind]
  | none =>
    obtain ⟨i, hi⟩ := created_find tx ts db.nextSubID hnd t ht hfind
    exact ⟨i, by simpa using hi⟩

theorem upsert_wf (tx : models.Transaction) (db : DB) (t : moneropay.Transaction) (hwf : db.WF) :
    (db.upsert tx t).WF := by
  unfold DB.upsert
  split
  · constructor
    · simp only [DB.insertSub, List.map_append, List.map_cons, List.map_nil]
      rw [List.nodup_append]
      refine ⟨hwf.1, by simp, ?_⟩
      intro i hi hi'
      simp only [List.mem_map] at hi
      obtain ⟨r, hr, rfl⟩ := hi
      have := hwf.2 r hr
      simp at hi'
      omega
    · intro r hr
      simp only [DB.insertSub, List.mem_append, List.mem_singleton] at hr ⊢
      rcases hr with hr | hr
      · have := hwf.2 r hr; omega
      · subst hr; simp
  · next r _ =>
    have hid : ∀ x : models.SubTransaction,
        (if (x.ID == r.ID) = true then { newSubTransaction tx t with ID := r.ID } else x).ID = x.ID := by
      intro x
      by_cases h : x.ID = r.ID <;> simp [h]
    constructor
    · simp only [DB.updateSub, List.map_map]
      have : ((fun r : models.SubTransaction => r.ID) ∘ fun x : models.SubTransaction =>
          if (x.ID == r.ID) = true then { newSubTransaction tx t with ID := r.ID } else x)
          = fun r => r.ID := funext hid
      rw [this]
      exact hwf.1
    · intro x hx
      simp only [DB.updateSub, List.mem_map] at hx ⊢
      obtain ⟨y, hy, rfl⟩ := hx
      rw [hid y]
      exact hwf.2 y hy

theorem upsertAll_wf (tx : models.Transaction) (ts : List moneropay.Transaction) (db : DB)
    (hwf : db.WF) : (db.upsertAll tx ts).WF := by
  induction ts generalizing db with
  | nil => exact hwf
  | cons t ts ih => exact ih (db.upsert tx t) (upsert_wf tx db t hwf)

theorem saveTransaction_wf (db : DB) (tx : models.Transaction) (hwf : db.WF) :
    (db.saveTransaction tx).WF := hwf

theorem map_fixed {α : Type} (l : List α) (f : α → α) (h : ∀ x ∈ l, f x = x) : l.map f = l := by
  induction l with
  | nil => rfl
  | cons a l ih =>
    rw [List.map_cons, h a (by simp), ih (fun x hx => h x (by simp [hx]))]

/-- An upsert that finds, under the hash of the transfer, a row that already carries the
observed values leaves the tables as they are. -/
theorem upsert_fixed (db : DB) (tx : models.Transaction) (t : moneropay.Transaction)
    (r : models.SubTransaction)
    (hfind : tx.SubTransactions.find? (fun subTx => subTx.TxHash == t.TxHash) = some r)
    (hr : r = subFor tx t r.ID)
    (huniq : ∀ x ∈ db.subTransactions, x.ID = r.ID → x = r) :
    db.upsert tx t = db := by
  have hmap : db.subTransactions.map
      (fun x => if (x.ID == r.ID) = true then subFor tx t r.ID else x) = db.subTransactions := by
    apply map_fixed
    intro x hx
    by_cases h : x.ID = r.ID
    · simp only [beq_iff_eq, h, if_true]
      rw [← hr]
      exact (huniq x hx h).symm
    · simp [h]
  unfold DB.upsert
  simp only [hfind, DB.updateSub]
  have : ({ newSubTransaction tx t with ID := r.ID } : models.SubTransaction) = subFor tx t r.ID := rfl
  rw [this, hmap]

theorem upsertAll_fixed (db : DB) (tx : models.Transaction) (ts : List moneropay.Transaction)
    (h : ∀ t ∈ ts, db.upsert tx t = db) : db.upsertAll tx ts = db := by
  induction ts with
  | nil => rfl
  | cons t ts ih =>
    have hstep : db.upsertAll tx (t :: ts) = (db.upsert tx t).upsertAll tx ts := rfl
    rw [hstep, h t (by simp)]
    exact ih (fun t' ht' => h t' (by simp [ht']))

theorem withFlags_idem (tx : models.Transaction) (obs : moneropay.ReceiveAddressResponse) :
    withFlags (withFlags tx obs) obs = withFlags tx obs := rfl

theorem saveTransaction_idem (db : DB) (tx : models.Transaction) :
    (db.saveTransaction tx).saveTransaction tx = db.saveTransaction tx := by
  simp only [DB.saveTransaction, List.map_map, DB.mk.injEq, and_true, true_and]
  apply List.map_congr_left
  intro x _
  simp only [Function.comp]
  by_cases h : x.ID = tx.ID
  · simp [h]
  · simp [h]

/-- The tables after a merge on the in-memory repository, whatever the scheduled outcomes:
untouched, or the upserts of an initial segment of the transfers, or the complete merge. -/
theorem processTransaction_db_cases (id : Nat) (obs : moneropay.ReceiveAddressResponse) (s : Store) :
    (processTransaction memRepo id obs s).2.db = s.db ∨
      ∃ tx, s.db.load id = some tx ∧
        ((∃ k, (processTransaction memRepo id obs s).2.db =
            s.db.upsertAll tx (obs.Transactions.take k)) ∨
          ∃ tx2, (s.db.upsertAll tx obs.Transactions).load id = some tx2 ∧
            (processTransaction memRepo id obs s).2.db =
              (s.db.upsertAll tx obs.Transactions).saveTransaction (withFlags tx2 obs)) := by
  rw [processTransaction_eq, memRepo_find]
  rcases exec_cases s (.findTransactionByID id) (fun db =>
      match db.load id with
      | some t => (.ok t, db)
      | none => (.error "record not found", db)) with ⟨e, fs, _, hx⟩ | ⟨_, hx⟩
  · left; simp [hx]
  · cases hload : s.db.load id with
    | none => left; simp [hx, hload]
    | some tx =>
      right
      refine ⟨tx, rfl, ?_⟩
      have hid := load_id hload
      simp only [hx, hload]
      obtain ⟨k, hk⟩ := upsert_loop_some_take tx obs.Transactions
        { db := s.db, faults := s.faults.tail, log := s.log ++ [.findTransactionByID id] }
      rcases hloop : upsertSubTransactions memRepo tx obs.Transactions
          { db := s.db, faults := s.faults.tail, log := s.log ++ [.findTransactionByID id] }
        with ⟨_ | err, s2⟩
      · have hdb := (upsert_loop_ok tx obs.Transactions _ (by rw [hloop])).1
        rw [hloop] at hdb
        simp only at hdb
        have hall : s2.db = s.db.upsertAll tx (obs.Transactions.take obs.Transactions.length) := by
          rw [List.take_length]; exact hdb
        simp only
        rw [memRepo_find]
        rcases exec_cases s2 (.findTransactionByID tx.ID) (fun db =>
            match db.load tx.ID with
            | some t => (.ok t, db)
            | none => (.error "record not found", db)) with ⟨e, fs, _, hx2⟩ | ⟨_, hx2⟩
        · left; exact ⟨_, by simp only [hx2]; exact hall⟩
        · cases hload2 : s2.db.load tx.ID with
          | none => left; exact ⟨_, by simp only [hx2, hload2]; exact hall⟩
          | some tx2 =>
            simp only [hx2, hload2]
            rw [memRepo_update]
            rcases exec_cases
                { db := s2.db, faults := s2.faults.tail, log := s2.log ++ [.findTransactionByID tx.ID] }
                (.updateTransaction (withFlags tx2 obs))
                (fun db => (.ok (withFlags tx2 obs), db.saveTransaction (withFlags tx2 obs)))
              with ⟨e, fs, _, hx3⟩ | ⟨_, hx3⟩
            · left; exact ⟨_, by simp only [hx3]; exact hall⟩
            · right
              refine ⟨tx2, ?_, ?_⟩
              · rw [← hdb, ← hid]; exact hload2
              · simp only [hx3]
                rw [← hdb]
      · left
        rw [hloop] at hk
        exact ⟨k, hk⟩

/-- The primary-key discipline is kept by every merge, successful or not. -/
theorem processTransaction_wf (id : Nat) (obs : moneropay.ReceiveAddressResponse) (s : Store)
    (hwf : s.db.WF) : (processTransaction memRepo id obs s).2.db.WF := by
  rcases processTransaction_db_cases id obs s with h | ⟨tx, _, ⟨k, h⟩ | ⟨tx2, _, h⟩⟩
  · rw [h]; exact hwf
  · rw [h]; exact upsertAll_wf tx _ s.db hwf
  · rw [h]; exact saveTransaction_wf _ _ (upsertAll_wf tx _ s.db hwf)

theorem subFor_congr (tx tx1 : models.Transaction) (h : tx1.ID = tx.ID)
    (t : moneropay.Transaction) (i : Nat) : subFor tx1 t i = subFor tx t i := by
  simp only [subFor, newSubTransaction, h]

/-- After a merge of an observation without repeated hash, a second pass of the same transfers
over the same sub-payment table changes nothing. -/
theorem second_upsert_fixed (db db1 : DB) (tx tx1 : models.Transaction)
    (ts : List moneropay.Transaction) (hwf : db.WF)
    (hS : tx.SubTransactions = db.subTransactions.filter (fun r => r.TransactionID == tx.ID))
    (hnd : (ts.map (fun t => t.TxHash)).Nodup)
    (hsub1 : db1.subTransactions = (db.upsertAll tx ts).subTransactions)
    (hid : tx1.ID = tx.ID)
    (hS1 : tx1.SubTransactions = db1.subTransactions.filter (fun r => r.TransactionID == tx.ID)) :
    ∀ t ∈ ts, db1.upsert tx1 t = db1 := by
  intro t ht
  obtain ⟨i, hi⟩ := upsertAll_lookup tx ts db hwf hS hnd t ht
  rw [← hsub1, ← hS1] at hi
  have hmem : subFor tx t i ∈ db1.subTransactions := by
    have := List.mem_of_find?_eq_some hi
    rw [hS1, List.mem_filter] at this
    exact this.1
  apply upsert_fixed db1 tx1 t (subFor tx t i) hi
  · rw [subFor_congr tx tx1 hid]; rfl
  · intro x hx hxid
    have hwf1 := upsertAll_wf tx ts db hwf
    rw [hsub1] at hx hmem
    exact wf_inj _ hwf1 x hx _ hmem hxid

/-- C4. The merge is idempotent under re-delivery. On a store that keeps the primary-key
discipline, after a merge of an observation without repeated hash in which every store
operation succeeded, merging the same observation for the same transaction again leaves the
tables (every sub-payment with every field, and the transaction with its flags) exactly as
the first merge left them, whatever happens to the store operations of the second merge. -/
theorem merge_idempotent (s : Store) (id : Nat) (obs : moneropay.ReceiveAddressResponse)
    (hwf : s.db.WF) (hnd : (obs.Transactions.map (fun t => t.TxHash)).Nodup)
    (h : (processTransaction memRepo id obs s).1 = none) :
    (processTransaction memRepo id obs (processTransaction memRepo id obs s).2).2.db =
      (processTransaction memRepo id obs s).2.db := by
  obtain ⟨tx, tx2, h0, h2, hdb⟩ := processTransaction_ok id obs s h
  obtain ⟨_, _, h0', h2', _, hl⟩ := processTransaction_load id obs s h
  rw [h0] at h0'
  cases Option.some.inj h0'
  rw [h2] at h2'
  cases Option.some.inj h2'
  have hid : tx.ID = id := load_id h0
  have hS : tx.SubTransactions = s.db.subTransactions.filter (fun r => r.TransactionID == tx.ID) := by
    rw [hid]; exact load_subs h0
  have hid2 : tx2.ID = id := load_id h2
  have hS2 : tx2.SubTransactions =
      (s.db.upsertAll tx obs.Transactions).subTransactions.filter
        (fun r => r.TransactionID == tx.ID) := by
    rw [hid]; exact load_subs h2
  -- the second pass of the loop is the identity on the tables left by the first merge
  have hfix : ∀ t ∈ obs.Transactions,
      (processTransaction memRepo id obs s).2.db.upsert (withFlags tx2 obs) t =
        (processTransaction memRepo id obs s).2.db := by
    apply second_upsert_fixed s.db _ tx (withFlags tx2 obs) obs.Transactions hwf hS hnd
    · rw [hdb]; rfl
    · exact hid2.trans hid.symm
    · rw [hdb]; exact hS2
  rcases processTransaction_db_cases id obs (processTransaction memRepo id obs s).2 with
    hc | ⟨tx1, hl1, ⟨k, hc⟩ | ⟨tx3, hl3, hc⟩⟩
  · exact hc
  · rw [hl] at hl1
    cases Option.some.inj hl1
    rw [hc]
    exact upsertAll_fixed _ _ _ (fun t ht => hfix t (List.mem_of_mem_take ht))
  · rw [hl] at hl1
    cases Option.some.inj hl1
    have hall := upsertAll_fixed _ _ _ hfix
    rw [hall] at hl3 hc
    rw [hl] at hl3
    cases Option.some.inj hl3
    rw [hc, withFlags_idem]
    conv_lhs => rw [hdb]
    conv_rhs => rw [hdb]
    exact saveTransaction_idem _ _

theorem created_hash_sublist (tx : models.Transaction) (ts : List moneropay.Transaction) (n : Nat) :
    ((createdRows tx ts n).map (fun r => r.TxHash)).Sublist (ts.map (fun t => t.TxHash)) := by
  induction ts generalizing n with
  | nil => simp [createdRows]
  | cons t ts ih =>
    rw [createdRows]
    split
    · exact List.Sublist.cons _ (ih n)
    · simp only [List.map_cons]
      exact List.Sublist.cons₂ _ (ih (n + 1))

theorem created_hash_notin (tx : models.Transaction) (ts : List moneropay.Transaction) (n : Nat) :
    ∀ c ∈ createdRows tx ts n, ∀ r ∈ tx.SubTransactions, r.TxHash ≠ c.TxHash := by
  induction ts generalizing n with
  | nil => simp [createdRows]
  | cons t ts ih =>
    rw [createdRows]
    split
    · exact ih n
    · next hnone =>
      intro c hc r hr
      simp only [List.mem_cons] at hc
      rcases hc with hc | hc
      · subst hc
        rw [List.find?_eq_none] at hnone
        simpa [subFor, newSubTransaction] using hnone r hr
      · exact ih (n + 1) c hc r hr

/-- The loop keeps the per-hash uniqueness invariant when the observation does not repeat a
hash. -/
theorem upsertAll_unique (tx : models.Transaction) (ts : List moneropay.Transaction) (db : DB)
    (hwf : db.WF)
    (hS : tx.SubTransactions = db.subTransactions.filter (fun r => r.TransactionID == tx.ID))
    (hnd : (ts.map (fun t => t.TxHash)).Nodup) (hu : db.UniqueHashes tx.ID) :
    (db.upsertAll tx ts).UniqueHashes tx.ID := by
  have hsub : ∀ r ∈ tx.SubTransactions, r ∈ db.subTransactions ∧ r.TransactionID = tx.ID := by
    intro r hr
    rw [hS, List.mem_filter] at hr
    exact ⟨hr.1, by simpa using hr.2⟩
  have hinjS : ∀ a ∈ tx.SubTransactions, ∀ b ∈ tx.SubTransactions, a.ID = b.ID → a = b :=
    fun a ha b hb e => wf_inj db hwf a (hsub a ha).1 b (hsub b hb).1 e
  unfold DB.UniqueHashes at hu ⊢
  rw [← hS] at hu
  rw [upsertAll_snapshot tx ts db hwf hS, List.map_append, List.map_map]
  have hkeep : tx.SubTransactions.map ((fun r : models.SubTransaction => r.TxHash) ∘ rewriteRow tx ts)
      = tx.SubTransactions.map (fun r => r.TxHash) := by
    apply List.map_congr_left
    intro x hx
    exact (rewriteRow_like tx ts hinjS x x hx rfl rfl (hsub x hx).2).1
  rw [hkeep, List.nodup_append]
  refine ⟨hu, (created_hash_sublist tx ts db.nextSubID).nodup hnd, ?_⟩
  intro h hin hin'
  simp only [List.mem_map] at hin hin'
  obtain ⟨r, hr, rfl⟩ := hin
  obtain ⟨c, hc, hce⟩ := hin'
  exact created_hash_notin tx ts db.nextSubID c hc r hr hce.symm

/-- A successful merge of an observation without repeated hash keeps the per-hash uniqueness
invariant of its transaction. -/
theorem processTransaction_unique (id : Nat) (obs : moneropay.ReceiveAddressResponse) (s : Store)
    (hwf : s.db.WF) (hnd : (obs.Transactions.map (fun t => t.TxHash)).Nodup)
    (hu : s.db.UniqueHashes id) (h : (processTransaction memRepo id obs s).1 = none) :
    (processTransaction memRepo id obs s).2.db.UniqueHashes id := by
  obtain ⟨tx, tx2, h0, _, hdb⟩ := processTransaction_ok id obs s h
  have hid : tx.ID = id := load_id h0
  have hS : tx.SubTransactions = s.db.subTransactions.filter (fun r => r.TransactionID == tx.ID) := by
    rw [hid]; exact load_subs h0
  rw [hdb, ← hid]
  exact upsertAll_unique tx obs.Transactions s.db hwf hS hnd (hid ▸ hu)

theorem mergeAll_cons {σ : Type} (repo : CallbackRepository σ) (id : Nat)
    (obs : moneropay.ReceiveAddressResponse) (rest : List moneropay.ReceiveAddressResponse)
    (s s' : σ) (h : mergeAll repo id (obs :: rest) s = some s') :
    (processTransaction repo id obs s).1 = none ∧
      mergeAll repo id rest (processTransaction repo id obs s).2 = some s' := by
  rw [mergeAll] at h
  rcases hp : processTransaction repo id obs s with ⟨_ | e, s1⟩
  · simp only [hp] at h
    exact ⟨rfl, h⟩
  · simp [hp] at h

/-- The state reached by a run of successful merges, each of one transfer: the key discipline
and the per-hash uniqueness invariant carry over. -/
theorem mergeAll_invariants (id : Nat) (obss : List moneropay.ReceiveAddressResponse)
    (s s' : Store) (hwf : s.db.WF)
    (hsingle : ∀ o ∈ obss, ∃ t, o.Transactions = [t])
    (h : mergeAll memRepo id obss s = some s') :
    s'.db.WF ∧ (s.db.UniqueHashes id → s'.db.UniqueHashes id) := by
  induction obss generalizing s with
  | nil =>
    simp only [mergeAll, Option.some.injEq] at h
    subst h
    exact ⟨hwf, fun hu => hu⟩
  | cons o rest ih =>
    obtain ⟨hok, hrest⟩ := mergeAll_cons memRepo id o rest s s' h
    obtain ⟨t, ht⟩ := hsingle o (by simp)
    have hnd : (o.Transactions.map (fun t => t.TxHash)).Nodup := by simp [ht]
    have := ih _ (processTransaction_wf id o s hwf) (fun o' ho' => hsingle o' (by simp [ho'])) hrest
    exact ⟨this.1, fun hu => this.2 (processTransaction_unique id o s hwf hnd hu hok)⟩

theorem mergeAll_append {σ : Type} (repo : CallbackRepository σ) (id : Nat)
    (l1 l2 : List moneropay.ReceiveAddressResponse) (s s' : σ)
    (h : mergeAll repo id (l1 ++ l2) s = some s') :
    ∃ s1, mergeAll repo id l1 s = some s1 ∧ mergeAll repo id l2 s1 = some s' := by
  induction l1 generalizing s with
  | nil => exact ⟨s, rfl, h⟩
  | cons o rest ih =>
    obtain ⟨hok, hrest⟩ := mergeAll_cons repo id o (rest ++ l2) s s' h
    obtain ⟨s1, h1, h2⟩ := ih _ hrest
    refine ⟨s1, ?_, h2⟩
    rw [mergeAll]
    rcases hp : processTransaction repo id o s with ⟨_ | e, s0⟩
    · simp only [hp] at h1 ⊢
      exact h1
    · rw [hp] at hok
      simp at hok

/-- C5. Per-hash updates are last-write-wins. After a run of successful merges for one
transaction, each carrying one transfer with the same hash, looking the hash up among the
stored sub-payments of the transaction finds a row with exactly the hash and the scalar
fields of the transfer applied last, whatever the confirmation counts of the earlier ones;
and when the stored sub-payments had pairwise distinct hashes before the run, that row is the
only sub-payment with the hash. -/
theorem last_write_wins (s s' : Store) (id : Nat) (earlier : List moneropay.ReceiveAddressResponse)
    (lastObs : moneropay.ReceiveAddressResponse) (t : moneropay.Transaction)
    (hwf : s.db.WF)
    (hsingle : ∀ o ∈ earlier, ∃ t', o.Transactions = [t'] ∧ t'.TxHash = t.TxHash)
    (hlast : lastObs.Transactions = [t])
    (hrun : mergeAll memRepo id (earlier ++ [lastObs]) s = some s') :
    ∃ after r, s'.db.load id = some after ∧
      after.SubTransactions.find? (fun subTx => subTx.TxHash == t.TxHash) = some r ∧
      Mirrors r t ∧
      (s.db.UniqueHashes id → ∀ r' ∈ after.SubTransactions, r'.TxHash = t.TxHash → r' = r) := by
  obtain ⟨s1, h1, h2⟩ := mergeAll_append memRepo id earlier [lastObs] s s' hrun
  obtain ⟨hok, hend⟩ := mergeAll_cons memRepo id lastObs [] s1 s' h2
  simp only [mergeAll, Option.some.injEq] at hend
  have hinv := mergeAll_invariants id earlier s s1 hwf
    (fun o ho => (hsingle o ho).imp (fun _ h => h.1)) h1
  have hnd : (lastObs.Transactions.map (fun t => t.TxHash)).Nodup := by simp [hlast]
  obtain ⟨tx, tx2, h0, h2', _, hl⟩ := processTransaction_load id lastObs s1 hok
  have hid : tx.ID = id := load_id h0
  have hS : tx.SubTransactions = s1.db.subTransactions.filter (fun r => r.TransactionID == tx.ID) := by
    rw [hid]; exact load_subs h0
  have hS2 : tx2.SubTransactions =
      (s1.db.upsertAll tx lastObs.Transactions).subTransactions.filter
        (fun r => r.TransactionID == tx.ID) := by
    rw [hid]; exact load_subs h2'
  obtain ⟨i, hi⟩ := upsertAll_lookup tx lastObs.Transactions s1.db hinv.1 hS hnd t (by simp [hlast])
  rw [← hS2] at hi
  rw [hend] at hl
  refine ⟨withFlags tx2 lastObs, subFor tx t i, hl, hi, ?_, ?_⟩
  · exact ⟨rfl, rfl, rfl, rfl, rfl, rfl, rfl, rfl, rfl⟩
  · intro hu r' hr' hh
    have hu' := processTransaction_unique id lastObs s1 hinv.1 hnd (hinv.2 hu) hok
    obtain ⟨_, _, h0'', _, hdb⟩ := processTransaction_ok id lastObs s1 hok
    rw [h0] at h0''
    cases Option.some.inj h0''
    unfold DB.UniqueHashes at hu'
    rw [hdb] at hu'
    have hu2 : (tx2.SubTransactions.map (fun r => r.TxHash)).Nodup := by
      rw [hS2, hid]; exact hu'
    have hmem : subFor tx t i ∈ tx2.SubTransactions := List.mem_of_find?_eq_some hi
    exact List.inj_on_of_nodup_map hu2 hr' hmem (by rw [hh]; rfl)

/-- On every repository: when the loaded snapshot has no sub-payment for a hash and the
observation lists that hash twice, both transfers go through `CreateSubTransaction`; the
second one is not turned into an update of the row the first one created. -/
theorem repeated_hash_takes_create_branch {σ : Type} (repo : CallbackRepository σ)
    (tx : models.Transaction) (t1 t2 : moneropay.Transaction) (s : σ)
    (hnew : tx.SubTransactions.find? (fun subTx => subTx.TxHash == t1.TxHash) = none)
    (hsame : t2.TxHash = t1.TxHash) :
    upsertSubTransactions repo tx [t1, t2] s =
      match repo.CreateSubTransaction (newSubTransaction tx t1) s with
      | (.error err, s1) =>
        (some (models.NewHTTPError StatusInternalServerError
          ("Failed to create subtransaction: " ++ err)), s1)
      | (.ok _, s1) =>
        match repo.CreateSubTransaction (newSubTransaction tx t2) s1 with
        | (.error err, s2) =>
          (some (models.NewHTTPError StatusInternalServerError
            ("Failed to create subtransaction: " ++ err)), s2)
        | (.ok _, s2) => (none, s2) := by
  have hnew2 : tx.SubTransactions.find? (fun subTx => subTx.TxHash == t2.TxHash) = none := by
    rw [hsame]; exact hnew
  rw [upsertSubTransactions_cons_none _ _ _ _ _ hnew]
  rcases repo.CreateSubTransaction (newSubTransaction tx t1) s with ⟨_ | _, s1⟩
  · rfl
  · simp only
    rw [upsertSubTransactions_cons_none _ _ _ _ _ hnew2]
    rcases repo.CreateSubTransaction (newSubTransaction tx t2) s1 with ⟨_ | _, s2⟩
    · rfl
    · simp only [upsertSubTransactions]

theorem resolvedAmount_eq_spec (payload : LwsHookRequest) :
    resolvedAmount payload = specAmount payload := by
  unfold resolvedAmount specAmount
  rcases payload.TxInfo with _ | ti <;> by_cases h : payload.Amount = 0 <;> simp [h]

theorem resolvedTxHash_eq_spec (payload : LwsHookRequest) :
    resolvedTxHash payload = specTxHash payload := by
  unfold resolvedTxHash specTxHash
  rcases payload.TxInfo with _ | ti <;> by_cases h : payload.TxHash = "" <;> simp [h]

theorem resolvedHeight_eq_spec (payload : LwsHookRequest) :
    resolvedHeight payload = specHeight payload := by
  unfold resolvedHeight specHeight
  rcases payload.Height with _ | height
  · rcases payload.TxInfo with _ | ti
    · rfl
    · rcases hb : ti.Block with _ | block <;> simp [hb]
  · rfl

/-- The observation built by the code is the one described by the specification. -/
theorem lwsReceive_eq_spec (receipt : Time) (payload : LwsHookRequest) :
    lwsReceive payload (resolvedAmount payload) (resolvedTxHash payload)
        (resolvedTimestamp receipt payload) =
      specObservation receipt payload := by
  unfold lwsReceive specObservation
  rw [resolvedAmount_eq_spec, resolvedTxHash_eq_spec, resolvedHeight_eq_spec,
    resolvedTimestamp_eq_spec]
  by_cases hc : payload.Confirmations = 0 <;> simp [hc]

/-- C11. On the success path the merger receives exactly the synthesized observation. For a
payload whose resolved amount is non-zero and whose resolved hash is non-empty, that is not
stale, that comes with the configured token and for which the store returns exactly one
candidate `T`, the error and the repository state returned by `HandleLwsHook` are those of
`processTransaction` for `T.ID` and the single-transfer observation of the specification
(expected and covered total the resolved amount, covered unlocked 0, one transfer with the
resolved amount, hash and timestamp, the payload's confirmations, the flat height or else the
nested block or else 0, locked exactly when there is no confirmation, no fee, no unlock time,
no double spend), run on the state the lookup left. -/
theorem lws_success_forwards_observation {σ : Type} (repo : CallbackRepository σ)
    (config : Config) (clock : Clock) (c : Context) (jwtToken : String)
    (payload : LwsHookRequest) (s s1 : σ) (T : models.Transaction)
    (htoken : jwtToken = config.JWTLwsToken)
    (hamount : specAmount payload ≠ 0) (hhash : specTxHash payload ≠ "")
    (hfresh : clock.atStaleCheck.nanos - (specEventTimestamp clock.atEntry payload).nanos ≤ Minute)
    (hlookup : repo.FindRecentPendingTransactionsByAmount (specAmount payload)
      (clock.atLookup.Add (-1 * Minute)) s = (.ok [T], s1)) :
    HandleLwsHook repo config clock (some c) jwtToken payload s =
      processTransaction repo T.ID (specObservation clock.atEntry payload) s1 := by
  rw [← resolvedAmount_eq_spec] at hamount hlookup
  rw [← resolvedTxHash_eq_spec] at hhash
  rw [← resolvedTimestamp_eq_spec] at hfresh
  have hb : (resolvedAmount payload == 0 || resolvedTxHash payload == "") = false := by
    simp [hamount, hhash]
  have ht : (jwtToken != config.JWTLwsToken) = false := by simp [htoken]
  have hf : ¬ Time.Since clock.atStaleCheck (resolvedTimestamp clock.atEntry payload) > Minute := by
    rw [since_gt_minute]; omega
  unfold HandleLwsHook
  simp only [hb, Bool.false_eq_true, if_false, hf, ht, hlookup]
  rw [lwsReceive_eq_spec]

/-- C12. The policy that a confirmed transaction is accepted holds under the natural side
conditions. For a stored transaction that requires at most 10 confirmations and an
observation whose covered unlocked amount does not exceed its covered total, after a merge in
which every store operation succeeded, a persisted `confirmed` flag that is true comes with a
persisted `accepted` flag that is true. -/
theorem confirmed_implies_accepted (s : Store) (id : Nat) (obs : moneropay.ReceiveAddressResponse)
    (before : models.Transaction) (hload : s.db.load id = some before)
    (hreq : before.RequiredConfirmations ≤ 10)
    (hcov : obs.Amount.Covered.Unlocked ≤ obs.Amount.Covered.Total)
    (h : (processTransaction memRepo id obs s).1 = none) :
    ∃ after, (processTransaction memRepo id obs s).2.db.load id = some after ∧
      (after.Confirmed = true → after.Accepted = true) := by
  obtain ⟨tx, tx2, h0, _, hsc, hl⟩ := processTransaction_load id obs s h
  rw [hload] at h0
  cases Option.some.inj h0
  refine ⟨withFlags tx2 obs, hl, ?_⟩
  intro hc
  have hc' : allConfirmed tx2 obs = true := hc
  have hr : tx2.RequiredConfirmations = before.RequiredConfirmations := by rw [hsc]
  obtain ⟨hall, hamt⟩ := (allConfirmed_iff tx2 obs).mp hc'
  show allAccepted tx2 obs = true
  rw [allAccepted_iff]
  refine ⟨fun sub hsub => ?_, ?_⟩
  · have := hall sub hsub
    omega
  · omega

/-- The worked example of C1: with amount 1,000,000 and two required confirmations, a first
observation of `h1` with one confirmation and full coverage leaves `accepted` false, and a
second observation of the same hash with two confirmations sets it. -/
theorem accepted_iff_threshold_and_coverage_witness :
    (processTransaction memRepo 1 (exampleObservation [exampleTransfer "h1" 1] 1000000 0)
        exampleStore).1 = none ∧
      ((processTransaction memRepo 1 (exampleObservation [exampleTransfer "h1" 1] 1000000 0)
        exampleStore).2.db.load 1).map (fun t => t.Accepted) = some false ∧
      ((processTransaction memRepo 1 (exampleObservation [exampleTransfer "h1" 2] 1000000 0)
        (processTransaction memRepo 1 (exampleObservation [exampleTransfer "h1" 1] 1000000 0)
          exampleStore).2).2.db.load 1).map (fun t => t.Accepted) = some true ∧
      ∃ before after, exampleStore.db.load 1 = some before ∧
        (processTransaction memRepo 1 (exampleObservation [exampleTransfer "h1" 1] 1000000 0)
          exampleStore).2.db.load 1 = some after ∧
        after.Amount = before.Amount ∧
        after.RequiredConfirmations = before.RequiredConfirmations ∧
        (after.Accepted = true ↔
          (∀ sub ∈ after.SubTransactions, before.RequiredConfirmations ≤ sub.Confirmations) ∧
            before.Amount ≤
              (exampleObservation [exampleTransfer "h1" 1] 1000000 0).Amount.Covered.Total) :=
  ⟨by decide, by decide, by decide,
    accepted_iff_threshold_and_coverage exampleStore 1
      (exampleObservation [exampleTransfer "h1" 1] 1000000 0) (by decide)⟩

/-- The worked example of C2: two confirmations leave `confirmed` false although the
transaction requires only two; ten confirmations with the amount unlocked set it. -/
theorem confirmed_iff_finality_and_unlocked_witness :
    (processTransaction memRepo 1 (exampleObservation [exampleTransfer "h1" 2] 1000000 0)
        exampleStore).1 = none ∧
      ((processTransaction memRepo 1 (exampleObservation [exampleTransfer "h1" 2] 1000000 0)
        exampleStore).2.db.load 1).map (fun t => t.Confirmed) = some false ∧
      ((processTransaction memRepo 1 (exampleObservation [exampleTransfer "h1" 10] 1000000 1000000)
        exampleStore).2.db.load 1).map (fun t => t.Confirmed) = some true ∧
      ∃ before after, exampleStore.db.load 1 = some before ∧
        (processTransaction memRepo 1 (exampleObservation [exampleTransfer "h1" 2] 1000000 0)
          exampleStore).2.db.load 1 = some after ∧
        after.Amount = before.Amount ∧
        (after.Confirmed = true ↔
          (∀ sub ∈ after.SubTransactions, 10 ≤ sub.Confirmations) ∧
            before.Amount ≤
              (exampleObservation [exampleTransfer "h1" 2] 1000000 0).Amount.Covered.Unlocked) ∧
        ∀ (s' : Store) (r : Int), s'.db = exampleStore.db.setRequired 1 r →
          (processTransaction memRepo 1 (exampleObservation [exampleTransfer "h1" 2] 1000000 0)
            s').1 = none →
          ∃ after', (processTransaction memRepo 1
              (exampleObservation [exampleTransfer "h1" 2] 1000000 0) s').2.db.load 1 = some after' ∧
            after'.RequiredConfirmations = r ∧
            after'.SubTransactions = after.SubTransactions ∧
            after'.Confirmed = after.Confirmed :=
  ⟨by decide, by decide, by decide,
    confirmed_iff_finality_and_unlocked exampleStore 1
      (exampleObservation [exampleTransfer "h1" 2] 1000000 0) (by decide)⟩

/-- C6, counterexample. A payload with amount zero presented with a wrong token is answered
with 400, not with 401: the payload check runs before the token check. -/
theorem lws_bad_token_zero_amount_not_unauthenticated :
    "wrong-token" ≠ exampleConfig.JWTLwsToken ∧
      (HandleLwsHook memRepo exampleConfig (exampleClock 100) (some Context.background)
        "wrong-token" (examplePayload 0 none) exampleStore).1 =
        some ⟨400, "amount and tx_hash are required"⟩ := by
  decide

/-- A wrong token with a complete, fresh payload: 401 and an untouched store. -/
theorem lws_bad_token_rejected_witness :
    "wrong-token" ≠ exampleConfig.JWTLwsToken ∧
      (HandleLwsHook memRepo exampleConfig (exampleClock 100) (some Context.background)
        "wrong-token" (examplePayload 1000000 none) exampleStore).2 = exampleStore ∧
      ((resolvedAmount (examplePayload 1000000 none) = 0 ∨
          resolvedTxHash (examplePayload 1000000 none) = "") →
        (HandleLwsHook memRepo exampleConfig (exampleClock 100) (some Context.background)
          "wrong-token" (examplePayload 1000000 none) exampleStore).1 =
          some ⟨400, "amount and tx_hash are required"⟩) ∧
      (resolvedAmount (examplePayload 1000000 none) ≠ 0 →
        resolvedTxHash (examplePayload 1000000 none) ≠ "" →
        ∃ msg, (HandleLwsHook memRepo exampleConfig (exampleClock 100) (some Context.background)
          "wrong-token" (examplePayload 1000000 none) exampleStore).1 = some ⟨401, msg⟩) :=
  ⟨by decide,
    lws_bad_token_rejected memRepo exampleConfig (exampleClock 100) Context.background
      "wrong-token" (examplePayload 1000000 none) exampleStore (by decide)⟩

/-- Two pending transactions of the same amount: the hook is rejected with 401 and the tables
are those of the store before the call. -/
theorem lws_ambiguous_rejected_witness :
    (memRepo.FindRecentPendingTransactionsByAmount 1000000
        ((exampleClock 100).atLookup.Add (-1 * Minute)) ambiguousStore).1 =
        .ok [exampleTransaction, exampleTwin] ∧
      (HandleLwsHook memRepo exampleConfig (exampleClock 100) (some Context.background)
        "lws-token" (examplePayload 1000000 none) ambiguousStore).2.db = ambiguousStore.db ∧
      HandleLwsHook memRepo exampleConfig (exampleClock 100) (some Context.background)
          "lws-token" (examplePayload 1000000 none) ambiguousStore =
        (some ⟨401, "Unable to uniquely resolve transaction for LWS hook"⟩,
          (memRepo.FindRecentPendingTransactionsByAmount 1000000
            ((exampleClock 100).atLookup.Add (-1 * Minute)) ambiguousStore).2) :=
  ⟨by rfl, by decide,
    (lws_ambiguous_rejected memRepo exampleConfig (exampleClock 100) Context.background
      "lws-token" (examplePayload 1000000 none) ambiguousStore _
      [exampleTransaction, exampleTwin] (by decide) (by decide) (by decide) (by decide)
      (by rfl) (by decide)).1⟩

/-- A payload stamped one nanosecond more than a minute before the clock reading is stale,
even with the right token; one stamped exactly a minute before is not. -/
theorem lws_stale_rejected_witness :
    (HandleLwsHook memRepo exampleConfig (exampleClock 60000000002) (some Context.background)
        "lws-token" (examplePayload 1000000 (some ⟨1⟩)) exampleStore =
        (some ⟨401, "Stale LWS payload"⟩, exampleStore)) ∧
      ((HandleLwsHook memRepo exampleConfig (exampleClock 60000000001) (some Context.background)
        "lws-token" (examplePayload 1000000 (some ⟨1⟩)) exampleStore).1 ≠
        some ⟨401, "Stale LWS payload"⟩) :=
  ⟨(lws_stale_rejected memRepo exampleConfig (exampleClock 60000000002) Context.background
      "lws-token" (examplePayload 1000000 (some ⟨1⟩)) exampleStore (by decide) (by decide)).2.1
      (by decide),
    (lws_stale_rejected memRepo exampleConfig (exampleClock 60000000001) Context.background
      "lws-token" (examplePayload 1000000 (some ⟨1⟩)) exampleStore (by decide) (by decide)).2.2
      (by decide)⟩

/-- Two transfers, the write for the second fails: code 500, the first sub-payment stays,
the transaction row is untouched and nothing is attempted after the failed write. The same
with the failure at the final transaction update: both sub-payments stay. -/
theorem write_failure_keeps_applied_upserts_witness :
    (exampleFaultyStore [none, none, some "disk full"]).db.load 1 = some exampleTransaction ∧
      (∃ msg, (processTransaction memRepo 1
        (exampleObservation [exampleTransfer "h1" 1, exampleTransfer "h2" 1] 1000000 0)
        (exampleFaultyStore [none, none, some "disk full"])).1 = some ⟨500, msg⟩) ∧
      ((processTransaction memRepo 1
        (exampleObservation [exampleTransfer "h1" 1, exampleTransfer "h2" 1] 1000000 0)
        (exampleFaultyStore [none, none, some "disk full"])).2.db.subTransactions.map
          (fun r => r.TxHash) = ["h1"]) ∧
      (∃ msg, (processTransaction memRepo 1
        (exampleObservation [exampleTransfer "h1" 1, exampleTransfer "h2" 1] 1000000 0)
        (exampleFaultyStore [none, none, none, none, some "disk full"])).1 = some ⟨500, msg⟩) ∧
      ((processTransaction memRepo 1
        (exampleObservation [exampleTransfer "h1" 1, exampleTransfer "h2" 1] 1000000 0)
        (exampleFaultyStore [none, none, none, none, some "disk full"])).2.db.subTransactions.map
          (fun r => r.TxHash) = ["h1", "h2"]) :=
  ⟨by decide,
    Exists.imp (fun _ h => h.1)
      ((write_failure_keeps_applied_upserts (exampleFaultyStore [none, none, some "disk full"]) 1
        (exampleObservation [exampleTransfer "h1" 1, exampleTransfer "h2" 1] 1000000 0)
        exampleTransaction "disk full" [] (by decide)).1 1 (by decide) (by decide)),
    by decide,
    Exists.imp (fun _ h => h.1)
      ((write_failure_keeps_applied_upserts
        (exampleFaultyStore [none, none, none, none, some "disk full"]) 1
        (exampleObservation [exampleTransfer "h1" 1, exampleTransfer "h2" 1] 1000000 0)
        exampleTransaction "disk full" [] (by decide)).2 (by decide)),
    by decide⟩

/-- A sweep over four unconfirmed transactions: the one without address is not queried, the
three others are queried in order, and the two that were answered are merged although the
query between them failed. -/
theorem sweep_best_effort_witness :
    (memRepo.FindUnconfirmedTransactions sweepStore).1 = .ok sweepStore.db.transactions ∧
      (checkUnconfirmedTransactions memRepo scriptedSource (sweepStore, sweepSource)).2.queried =
        ["addr1", "addr3", "addr4"] ∧
      (checkUnconfirmedTransactions memRepo scriptedSource
        (sweepStore, sweepSource)).1.db.subTransactions.map (fun r => (r.TransactionID, r.TxHash)) =
        [(1, "h1"), (4, "h4")] ∧
      (checkUnconfirmedTransactions memRepo scriptedSource (sweepStore, sweepSource)).1 =
        (responded sweepStore.db.transactions sweepSource.answers).foldl
          (fun st p => (processTransaction memRepo p.1 p.2 st).2)
          (memRepo.FindUnconfirmedTransactions sweepStore).2 :=
  ⟨by rfl, by decide, by decide,
    (sweep_best_effort memRepo sweepStore _ sweepSource sweepStore.db.transactions (by rfl)).2.1⟩

/-- C3, the failing input. The stored transaction has no sub-payment, so its hashes are
pairwise distinct; an observation that lists the hash `h1` twice is merged without error,
both transfers go through the create branch, and the transaction ends with two sub-payments
for `h1`. -/
theorem repeated_hash_inserted_twice :
    exampleStore.db.UniqueHashes 1 ∧
      (processTransaction memRepo 1
        (exampleObservation [exampleTransfer "h1" 1, exampleTransfer "h1" 2] 1000000 0)
        exampleStore).1 = none ∧
      ((processTransaction memRepo 1
        (exampleObservation [exampleTransfer "h1" 1, exampleTransfer "h1" 2] 1000000 0)
        exampleStore).2.db.load 1).map
          (fun t => t.SubTransactions.map (fun r => (r.ID, r.TxHash, r.Confirmations))) =
        some [(1, "h1", 1), (2, "h1", 2)] ∧
      ¬ (processTransaction memRepo 1
        (exampleObservation [exampleTransfer "h1" 1, exampleTransfer "h1" 2] 1000000 0)
        exampleStore).2.db.UniqueHashes 1 ∧
      (processTransaction memRepo 1
        (exampleObservation [exampleTransfer "h1" 1, exampleTransfer "h1" 2] 1000000 0)
        exampleStore).2.log.filterMap
          (fun call =>
            match call with
            | .createSubTransaction sub => some (sub.TxHash, sub.Confirmations)
            | _ => none) =
        [("h1", 1), ("h1", 2)] := by
  decide

/-- Two transfers with different hashes, merged twice: the second merge changes nothing. -/
theorem merge_idempotent_witness :
    exampleStore.db.WF ∧
      (processTransaction memRepo 1
        (exampleObservation [exampleTransfer "h1" 1, exampleTransfer "h2" 4] 1000000 0)
        exampleStore).1 = none ∧
      (processTransaction memRepo 1
        (exampleObservation [exampleTransfer "h1" 1, exampleTransfer "h2" 4] 1000000 0)
        exampleStore).2.db.subTransactions.length = 2 ∧
      (processTransaction memRepo 1
        (exampleObservation [exampleTransfer "h1" 1, exampleTransfer "h2" 4] 1000000 0)
        (processTransaction memRepo 1
          (exampleObservation [exampleTransfer "h1" 1, exampleTransfer "h2" 4] 1000000 0)
          exampleStore).2).2.db =
        (processTransaction memRepo 1
          (exampleObservation [exampleTransfer "h1" 1, exampleTransfer "h2" 4] 1000000 0)
          exampleStore).2.db :=
  ⟨by decide, by decide, by decide,
    merge_idempotent exampleStore 1
      (exampleObservation [exampleTransfer "h1" 1, exampleTransfer "h2" 4] 1000000 0)
      (by decide) (by decide) (by decide)⟩

/-- Five confirmations observed first and three observed last for the same hash: the stored
sub-payment carries three. -/
theorem last_write_wins_witness :
    mergeAll memRepo 1
        ([exampleObservation [exampleTransfer "h1" 5] 1000000 0] ++
          [exampleObservation [exampleTransfer "h1" 3] 1000000 0]) exampleStore =
        some (processTransaction memRepo 1 (exampleObservation [exampleTransfer "h1" 3] 1000000 0)
          (processTransaction memRepo 1 (exampleObservation [exampleTransfer "h1" 5] 1000000 0)
            exampleStore).2).2 ∧
      ((processTransaction memRepo 1 (exampleObservation [exampleTransfer "h1" 3] 1000000 0)
        (processTransaction memRepo 1 (exampleObservation [exampleTransfer "h1" 5] 1000000 0)
          exampleStore).2).2.db.load 1).map
          (fun t => t.SubTransactions.map (fun r => (r.TxHash, r.Confirmations))) =
        some [("h1", 3)] ∧
      ∃ after r,
        (processTransaction memRepo 1 (exampleObservation [exampleTransfer "h1" 3] 1000000 0)
          (processTransaction memRepo 1 (exampleObservation [exampleTransfer "h1" 5] 1000000 0)
            exampleStore).2).2.db.load 1 = some after ∧
        after.SubTransactions.find? (fun subTx => subTx.TxHash == (exampleTransfer "h1" 3).TxHash) =
          some r ∧
        Mirrors r (exampleTransfer "h1" 3) ∧
        (exampleStore.db.UniqueHashes 1 →
          ∀ r' ∈ after.SubTransactions, r'.TxHash = (exampleTransfer "h1" 3).TxHash → r' = r) :=
  ⟨by decide, by decide,
    last_write_wins exampleStore _ 1 [exampleObservation [exampleTransfer "h1" 5] 1000000 0]
      (exampleObservation [exampleTransfer "h1" 3] 1000000 0) (exampleTransfer "h1" 3)
      (by decide) (by simp [exampleObservation, exampleTransfer]) (by rfl) (by decide)⟩

/-- A hook in the nested encoding with the right token and one pending transaction of the
amount: the call is the merge of the synthesized observation, it succeeds, and the stored
sub-payment has the nested hash and block, no confirmation, and is locked. -/
theorem lws_success_forwards_observation_witness :
    specAmount exampleNestedPayload = 1000000 ∧
      specTxHash exampleNestedPayload = "h9" ∧
      (memRepo.FindRecentPendingTransactionsByAmount (specAmount exampleNestedPayload)
        ((exampleClock 100).atLookup.Add (-1 * Minute)) exampleStore).1 =
        .ok [exampleTransaction] ∧
      (HandleLwsHook memRepo exampleConfig (exampleClock 100) (some Context.background)
        "lws-token" exampleNestedPayload exampleStore).1 = none ∧
      (HandleLwsHook memRepo exampleConfig (exampleClock 100) (some Context.background)
        "lws-token" exampleNestedPayload exampleStore).2.db.subTransactions.map
          (fun r => (r.TransactionID, r.TxHash, r.Amount, r.Confirmations, r.Height, r.Locked)) =
        [(1, "h9", 1000000, 0, 42, true)] ∧
      HandleLwsHook memRepo exampleConfig (exampleClock 100) (some Context.background)
          "lws-token" exampleNestedPayload exampleStore =
        processTransaction memRepo exampleTransaction.ID
          (specObservation (exampleClock 100).atEntry exampleNestedPayload)
          (memRepo.FindRecentPendingTransactionsByAmount (specAmount exampleNestedPayload)
            ((exampleClock 100).atLookup.Add (-1 * Minute)) exampleStore).2 :=
  ⟨by decide, by decide, by rfl, by decide, by decide,
    lws_success_forwards_observation memRepo exampleConfig (exampleClock 100)
      Context.background "lws-token" exampleNestedPayload exampleStore _ exampleTransaction
      (by decide) (by decide) (by decide) (by decide) (by rfl)⟩

/-- Ten confirmations with the amount covered and unlocked, for a transaction that requires
two: the merge persists `confirmed` and `accepted` together. -/
theorem confirmed_implies_accepted_witness :
    exampleStore.db.load 1 = some exampleTransaction ∧
      exampleTransaction.RequiredConfirmations ≤ 10 ∧
      ((processTransaction memRepo 1
        (exampleObservation [exampleTransfer "h1" 10] 1000000 1000000) exampleStore).2.db.load 1).map
          (fun t => (t.Confirmed, t.Accepted)) = some (true, true) ∧
      ∃ after, (processTransaction memRepo 1
          (exampleObservation [exampleTransfer "h1" 10] 1000000 1000000) exampleStore).2.db.load 1 =
          some after ∧
        (after.Confirmed = true → after.Accepted = true) :=
  ⟨by decide, by decide, by decide,
    confirmed_implies_accepted exampleStore 1
      (exampleObservation [exampleTransfer "h1" 10] 1000000 1000000) exampleTransaction
      (by decide) (by decide) (by decide) (by decide)⟩

end XMRpos
